import Mathlib

/-!
# IMGUTIL.C: byte layout and allocation of packed raster images

A shallow embedding of `src/imgutil.c` and the properties its specification states.

Conventions of the embedding.

* The arithmetic of the four numeric routines is given in two readings.
  - The exact reading (`SizeFromDepth`, `WordAlignFromDepth`, `width_16`, `alloc_int_image`)
    takes a C `int` as an `Int` and a `float` or `double` as the rational number it denotes.
    It carries the statements that do not depend on the numeric value of a size: the order of
    the checks, the errors, the allocation log, and what a routine does with whatever size it
    is handed.
  - The machine reading (`SizeFromDepth32`, `WordAlignFromDepth32`, `width_16_32`,
    `alloc_int_image32`) takes a C `int` as a 32-bit two's-complement integer whose sums and
    products wrap around (`wrap32`), rounds an `int` that meets a `float` to binary32
    (`roundF32`: nearest value, ties to even), and stores a floating value in an `int` through
    `toInt32`, which delivers `INT_MIN` for a value out of range, as the conversion
    instruction of x86-64 does.  Every statement that gives the numeric value of a size or
    of a width over a range of inputs is made of this reading.
  - Every floating constant of the file (8.0, 4.0, 2.0, 1.0, 0.5, 0.25, 0.125, 16) is a power
    of two, so the divisions and multiplications by `pixperbyte` are exact in binary32, and
    `ceil` is exact in `double`.
  - The two readings agree for widths up to 2^24 whose results fit an `int`
    (`SizeFromDepth32_agrees`, `WordAlignFromDepth32_of_le`, `width_16_32_closed`).
* `fatalerr` and `syserr` end the process.  A routine that may call them returns in `Except Err`,
  or in `Prog` when it also talks to the allocator.
* The allocator of the C library is a parameter (`Libc`); every call of `malloc`, `calloc` and
  `free` is recorded in a log, so that "no allocation was attempted" is a statement about the log.
-/

namespace Imgutil

/-! ## Errors -/

/-- The two ways a routine ends the process: through `fatalerr` (three message parts, the last
one may be `NULL`) or through `syserr` (routine, failed call, object). -/
inductive Err where
  | fatal (routine : String) (msg : String) (detail : Option String)
  | sys (routine : String) (call : String) (what : String)
deriving DecidableEq, Repr

/-- Modelled from the spec: `fatalerr` of `ffpis/util` is not part of the sources at hand; the
fatal-error reporter terminates the process with a structured message (calling-function name,
category, detail). -/
def fatalerr {α : Type} (routine msg : String) (detail : Option String) : Except Err α :=
  Except.error (Err.fatal routine msg detail)

/-- Modelled from the spec: `syserr` of `ffpis/util` is not part of the sources at hand; the
system-error reporter terminates the process in the same way and is used for allocation
failures. -/
def syserr {α : Type} (routine call what : String) : Except Err α :=
  Except.error (Err.sys routine call what)

/-! ## Floating point helpers -/

/-- The C library `ceil`: the least integral value not below `x`, still a floating value. -/
def ceil (x : ℚ) : ℚ := (⌈x⌉ : Int)

/-- Conversion of a floating value to `int`: the fractional part is discarded
(truncation toward zero). -/
def toInt (x : ℚ) : Int := if 0 ≤ x then ⌊x⌋ else ⌈x⌉

/-- The C remainder `a % b`, which truncates toward zero. -/
def cmod (a b : Int) : Int := Int.tmod a b

/-! ## Pure size computations -/

/-- `PixPerByte()`: the switch over the depth; the default case is fatal. -/
def PixPerByte (depth : Int) : Except Err ℚ :=
  if depth = 1 then pure 8
  else if depth = 2 then pure 4
  else if depth = 4 then pure 2
  else if depth = 8 then pure 1
  else if depth = 16 then pure (1 / 2)
  else if depth = 32 then pure (1 / 4)
  else if depth = 64 then pure (1 / 8)
  else fatalerr "PixPerByte" "depth != power of 2 between 1 and 64 (inclusive)" none

/-- `SizeFromDepth()` in the exact reading: the RGB case first, then
`ceil(pixwidth/pixperbyte) * pixheight`, stored in an `int`.  `SizeFromDepth32` is the machine
reading. -/
def SizeFromDepth (pixwidth pixheight depth : Int) : Except Err Int :=
  if depth = 24 then
    pure (pixwidth * pixheight * 3)
  else do
    let pixperbyte ← PixPerByte depth
    pure (toInt (ceil ((pixwidth : ℚ) / pixperbyte) * (pixheight : ℚ)))

/-- `WordAlignFromDepth()` in the exact reading: byte align, make the byte count even, convert
back to pixels.  `WordAlignFromDepth32` is the machine reading. -/
def WordAlignFromDepth (pixwidth depth : Int) : Except Err Int := do
  let pixperbyte ← PixPerByte depth
  let bytesperline := toInt (ceil ((pixwidth : ℚ) / pixperbyte))
  let bytesperline := if Int.land bytesperline 1 ≠ 0 then bytesperline + 1 else bytesperline
  pure (toInt ((bytesperline : ℚ) * pixperbyte))

/-- `width_16()` in the exact reading: a width that is not a multiple of 16 is rounded up
through `ceil`.  `width_16_32` is the machine reading. -/
def width_16 (width : Int) : Int :=
  if cmod width 16 ≠ 0 then
    let curwords : ℚ := (width : ℚ) / 16
    let newwords : ℚ := ceil curwords
    toInt newwords * 16
  else
    width

/-- The packing depths, those `PixPerByte` accepts. -/
def packedDepths : List Int := [1, 2, 4, 8, 16, 32, 64]

/-- The supported depths: the packing depths and 24 (RGB). -/
def supportedDepths : List Int := [1, 2, 4, 8, 16, 24, 32, 64]

/-! ## The allocator and the allocating routines -/

/-- The bytes of an allocated block, in address order. -/
abbrev Buffer := List Nat

/-- The allocator of the C library, which the routines only call: `grants n` tells whether a
request for `n` bytes is satisfied, `junk n i` is byte `i` of a fresh block of `n` bytes that
nobody has written yet. -/
structure Libc where
  grants : Nat → Bool
  junk : Nat → Nat → Nat

/-- An allocator that grants every request; its fresh blocks read as zero. -/
def roomy : Libc := ⟨fun _ => true, fun _ _ => 0⟩

/-- What the routines do to the heap: a request for a number of bytes (through `malloc` or
`calloc`, granted or not) and the release of a block. -/
inductive Event where
  | alloc (bytes : Int)
  | free
deriving DecidableEq, Repr

/-- A routine that may end the process and that logs its heap events: from the log so far to
the log at its end, together with its value or the error that ended the process. -/
def Prog (α : Type) : Type := List Event → List Event × Except Err α

instance : Monad Prog where
  pure a := fun log => (log, Except.ok a)
  bind m f := fun log =>
    match m log with
    | (log1, Except.ok a) => f a log1
    | (log1, Except.error e) => (log1, Except.error e)

/-- A computation without heap events, run inside a routine with a log. -/
def Prog.lift {α : Type} (x : Except Err α) : Prog α := fun log => (log, x)

instance : MonadLift (Except Err) Prog where
  monadLift x := Prog.lift x

/-- Run a routine from an empty log. -/
def Prog.run {α : Type} (p : Prog α) : List Event × Except Err α := p []

/-- `malloc(n)` for an `int` expression `n`: `none` is the null pointer.  A negative `n` becomes
a size beyond any block the allocator can grant. -/
def malloc (libc : Libc) (n : Int) : Prog (Option Buffer) := fun log =>
  (log ++ [Event.alloc n],
   Except.ok (if 0 ≤ n ∧ libc.grants n.toNat = true
     then some ((List.range n.toNat).map (libc.junk n.toNat)) else none))

/-- `calloc(nmemb, size)`: as `malloc(nmemb * size)`, with every byte zero. -/
def calloc (libc : Libc) (nmemb size : Int) : Prog (Option Buffer) := fun log =>
  (log ++ [Event.alloc (nmemb * size)],
   Except.ok (if 0 ≤ nmemb * size ∧ libc.grants (nmemb * size).toNat = true
     then some (List.replicate (nmemb * size).toNat 0) else none))

/-- `free(p)`. -/
def free : Prog Unit := fun log => (log ++ [Event.free], Except.ok ())

/-- `memset(p, c, n)` on a block: the first `n` bytes become `c`. -/
def memset (p : Buffer) (c : Nat) (n : Int) : Buffer :=
  List.replicate (min n.toNat p.length) c ++ p.drop n.toNat

/-- Modelled from the spec: `calloc_uchar` of `memalloc.h` is not part of the sources at hand;
the packed-buffer allocator obtains a zeroed block of `n` bytes and reports an allocation
failure through the system-error reporter, with the text of its caller. -/
def calloc_uchar (libc : Libc) (n : Int) (s : String) : Prog Buffer := do
  match ← calloc libc n 1 with
  | some b => pure b
  | none => syserr "calloc_uchar" "calloc" s

/-- Modelled from the spec: `malloc_uchar` of `memalloc.h` is not part of the sources at hand;
the packed-buffer allocator obtains an uninitialised block of `n` bytes and reports an
allocation failure through the system-error reporter, with the text of its caller. -/
def malloc_uchar (libc : Libc) (n : Int) (s : String) : Prog Buffer := do
  match ← malloc libc n with
  | some b => pure b
  | none => syserr "malloc_uchar" "malloc" s

/-- `init_image_data()`: returns the block and the size written through `data` and `size`. -/
def init_image_data (libc : Libc) (width height depth : Int) : Prog (Buffer × Int) := do
  let size ← SizeFromDepth width height depth
  match ← malloc libc (size * 1) with
  | none => syserr "init_image_data" "maloc" "data"
  | some data => pure (memset data 0 (size * 1), size)

/-- `allocate_image()`: the three dimension checks, then a zeroed block of `SizeFromDepth`. -/
def allocate_image (libc : Libc) (width height depth : Int) : Prog Buffer := do
  if width < 1 then
    fatalerr "allocate_image" "Invalid dimension" (some ("width = " ++ toString width))
  if height < 1 then
    fatalerr "allocate_image" "Invalid dimension" (some ("height = " ++ toString height))
  if depth < 1 then
    fatalerr "allocate_image" "Invalid dimension" (some ("depth = " ++ toString depth))
  calloc_uchar libc (← SizeFromDepth width height depth) "allocate_image : image"

/-- `mallocate_image()`: the same checks, then an uninitialised block. -/
def mallocate_image (libc : Libc) (width height depth : Int) : Prog Buffer := do
  if width < 1 then
    fatalerr "mallocate_image" "Invalid dimension" (some ("width = " ++ toString width))
  if height < 1 then
    fatalerr "mallocate_image" "Invalid dimension" (some ("height = " ++ toString height))
  if depth < 1 then
    fatalerr "mallocate_image" "Invalid dimension" (some ("depth = " ++ toString depth))
  malloc_uchar libc (← SizeFromDepth width height depth) "allocate_image : image"

/-- `SHORT_DEPTH`. -/
def SHORT_DEPTH : Int := 16

/-- `CHAR_DEPTH`. -/
def CHAR_DEPTH : Int := 8

/-- `alloc_short_image()`. -/
def alloc_short_image (libc : Libc) (width height : Int) : Prog Buffer := do
  let nbytes ← SizeFromDepth width height SHORT_DEPTH
  match ← calloc libc nbytes 1 with
  | none => syserr "alloc_short_image" "calloc" "sdata"
  | some sdata => pure sdata

/-- `alloc_char_image()`. -/
def alloc_char_image (libc : Libc) (width height : Int) : Prog Buffer := do
  let nbytes ← SizeFromDepth width height CHAR_DEPTH
  match ← calloc libc nbytes 1 with
  | none => syserr "alloc_char_image" "calloc" "cdata"
  | some cdata => pure cdata

/-- `alloc_int_image()` in the exact reading: `width*height` elements of `sizeof(int)` = 4
bytes.  `alloc_int_image32` is the machine reading. -/
def alloc_int_image (libc : Libc) (width height : Int) : Prog Buffer := do
  match ← calloc libc (width * height) 4 with
  | none => syserr "alloc_int_image" "calloc" "image"
  | some image => pure image

/-- The scanline repacking routine `WordAlignImage`, which lives in another file of the
library: given the block and its width, height and depth it either declines (`none`, the C
routine returns 0) or hands back a new block with its pixel width and byte length. -/
abbrev Repack := Buffer → Int → Int → Int → Option (Buffer × Int × Int)

/-- `allocate_aligned_image()`: returns the block and width written through `adata` and
`awidth`, and the byte length that the C routine returns. -/
def allocate_aligned_image (libc : Libc) (WordAlignImage : Repack)
    (width height depth : Int) : Prog (Buffer × Int × Int) := do
  if width < 1 then
    fatalerr "allocate_aligned_image" "Invalid width" (some (toString width))
  if height < 1 then
    fatalerr "allocate_aligned_image" "Invalid height" (some (toString height))
  if depth < 1 then
    fatalerr "allocate_aligned_image" "Invalid depth" (some (toString depth))
  let width16 := width_16 width
  match ← calloc libc (← SizeFromDepth width16 height depth) 1 with
  | none => syserr "allocate_aligned_image" "calloc" "image"
  | some image =>
    match WordAlignImage image width16 height depth with
    | some (aligned_image, aligned_width, aligned_length) =>
      free
      pure (aligned_image, aligned_width, aligned_length)
    | none =>
      let aligned_length ← SizeFromDepth width16 height depth
      pure (image, width16, aligned_length)

/-! ## Reference forms and the 32-bit machine integer -/

/-- The packing depths of at most one byte a pixel. -/
def subByteDepths : List Int := [1, 2, 4, 8]

/-- The packing depths of two or more bytes a pixel. -/
def multiByteDepths : List Int := [16, 32, 64]

/-- The exact integer form of the size that the design notes of the specification propose in
place of the floating-point ceiling: `(width*depth + 7) / 8` bytes a line, with integer
division, times the height. -/
def sizeInteger (w h d : Int) : Int := (w * d + 7) / 8 * h

/-- A value reduced to the range of a 32-bit two's-complement `int`. -/
def wrap32 (x : Int) : Int := (x + 2 ^ 31) % 2 ^ 32 - 2 ^ 31

/-- `INT_MAX` of a 32-bit `int`. -/
def INT_MAX : Int := 2147483647

/-- `INT_MIN` of a 32-bit `int`. -/
def INT_MIN : Int := -2147483648

/-- The spacing of the binary32 values around an integer `n` of magnitude below 2^32: a
binary32 significand has 24 bits, so the spacing is 1 below 2^24 = 16777216 and doubles with
every binade above. -/
def ulp32 (n : Int) : Int :=
  if -16777216 < n ∧ n < 16777216 then 1
  else if -33554432 < n ∧ n < 33554432 then 2
  else if -67108864 < n ∧ n < 67108864 then 4
  else if -134217728 < n ∧ n < 134217728 then 8
  else if -268435456 < n ∧ n < 268435456 then 16
  else if -536870912 < n ∧ n < 536870912 then 32
  else if -1073741824 < n ∧ n < 1073741824 then 64
  else if -2147483648 < n ∧ n < 2147483648 then 128
  else 256

/-- The multiple of `u` nearest to `n`; of two nearest ones, the even multiple. -/
def roundTo (u n : Int) : Int :=
  if 2 * (n % u) < u then n / u * u
  else if u < 2 * (n % u) then (n / u + 1) * u
  else if n / u % 2 = 0 then n / u * u
  else (n / u + 1) * u

/-- The binary32 value nearest to the integer `n`, ties going to the value with an even
significand (the default IEEE 754 rounding); the result is again an integer. -/
def roundF32 (n : Int) : Int := roundTo (ulp32 n) n

/-- Conversion of an `int` to `float`, as in `pixwidth/pixperbyte` and
`bytesperline * pixperbyte`, where the `int` operand meets a `float`. -/
def toFloat (n : Int) : ℚ := (roundF32 n : Int)

/-- Conversion of a floating value to a 32-bit `int`: the fraction is discarded when the result
fits; a value out of range has no defined conversion in C, and the conversion instruction of
x86-64 then delivers `INT_MIN`, which is what this model takes. -/
def toInt32 (x : ℚ) : Int :=
  if (INT_MIN : ℚ) - 1 < x ∧ x < (INT_MAX : ℚ) + 1 then toInt x else INT_MIN

/-- What `toInt32` delivers for a floating value that is the integer `n`. -/
def storeInt32 (n : Int) : Int := if INT_MIN ≤ n ∧ n ≤ INT_MAX then n else INT_MIN

/-- The size the specification defines: `width * height * 3` at depth 24, else
`ceil (width * depth / 8) * height`, in exact integers. -/
def specSize (w h d : Int) : Int := if d = 24 then w * h * 3 else (w * d + 7) / 8 * h

/-- `SizeFromDepth()` on the machine: `int` is a 32-bit two's-complement integer whose products
wrap around, `pixwidth` is rounded to binary32 where it meets `pixperbyte`, the division by
a power of two is exact, and the `double` product is stored through `toInt32`.  (A `double`
product is exact below 2^53; from 2^53 on it is out of the range of `int` before and after
its rounding, so the store delivers `INT_MIN` either way.) -/
def SizeFromDepth32 (pixwidth pixheight depth : Int) : Except Err Int :=
  if depth = 24 then
    pure (wrap32 (wrap32 (pixwidth * pixheight) * 3))
  else do
    let pixperbyte ← PixPerByte depth
    pure (toInt32 (ceil (toFloat pixwidth / pixperbyte) * (pixheight : ℚ)))

/-- `WordAlignFromDepth()` on the machine: both `int` operands that meet `pixperbyte` are
rounded to binary32, `++bytesperline` wraps around, and both stores go through `toInt32`. -/
def WordAlignFromDepth32 (pixwidth depth : Int) : Except Err Int := do
  let pixperbyte ← PixPerByte depth
  let bytesperline := toInt32 (ceil (toFloat pixwidth / pixperbyte))
  let bytesperline :=
    if Int.land bytesperline 1 ≠ 0 then wrap32 (bytesperline + 1) else bytesperline
  pure (toInt32 (toFloat bytesperline * pixperbyte))

/-- The word alignment step of `WordAlignFromDepth32` alone: `if (bytesperline & 0x1)
++bytesperline;` on a 32-bit `int`. -/
def alignedBytes32 (b : Int) : Int := if Int.land b 1 ≠ 0 then wrap32 (b + 1) else b

/-- `width_16()` on the machine: `(double)width/16` and `ceil` are exact for a 32-bit `int`,
the product `(int)newwords * 16` wraps around. -/
def width_16_32 (width : Int) : Int :=
  if cmod width 16 ≠ 0 then
    let curwords : ℚ := (width : ℚ) / 16
    let newwords : ℚ := ceil curwords
    wrap32 (toInt32 newwords * 16)
  else
    width

/-- `alloc_int_image()` on the machine: the element count `width*height` is an `int` product
that wraps around before it is handed to `calloc`. -/
def alloc_int_image32 (libc : Libc) (width height : Int) : Prog Buffer := do
  match ← calloc libc (wrap32 (width * height)) 4 with
  | none => syserr "alloc_int_image" "calloc" "image"
  | some image => pure image

/-- The pixel width `v` fills an even number of whole bytes at depth `d`. -/
def FillsEvenBytes (v d : Int) : Prop := ∃ k : Int, (v : ℚ) / ((8 : ℚ) / (d : ℚ)) = 2 * (k : ℚ)

/-! ## Arithmetic lemmas -/

theorem toInt_intCast (n : Int) : toInt (n : ℚ) = n := by
  unfold toInt
  split <;> simp

theorem ceil_intCast_div (w k : Int) (hk : 0 < k) :
    ⌈(w : ℚ) / (k : ℚ)⌉ = (w + k - 1) / k := by
  have hkq : (0 : ℚ) < (k : ℚ) := by exact_mod_cast hk
  rw [Int.ceil_eq_iff]
  constructor
  · rw [lt_div_iff₀ hkq]
    have h1 : ((w + k - 1) / k - 1) * k < w := by
      have e := Int.emod_add_ediv (w + k - 1) k
      have r0 := Int.emod_nonneg (w + k - 1) (ne_of_gt hk)
      have e2 : ((w + k - 1) / k - 1) * k = k * ((w + k - 1) / k) - k := by ring
      linarith
    exact_mod_cast h1
  · rw [div_le_iff₀ hkq]
    have h2 : w ≤ (w + k - 1) / k * k := by
      have e := Int.emod_add_ediv (w + k - 1) k
      have r1 := Int.emod_lt_of_pos (w + k - 1) hk
      have e2 : (w + k - 1) / k * k = k * ((w + k - 1) / k) := by ring
      linarith
    exact_mod_cast h2

theorem land_one_of_nonneg (n : Int) (h : 0 ≤ n) : Int.land n 1 = n % 2 := by
  obtain ⟨m, rfl⟩ := Int.eq_ofNat_of_zero_le h
  show ((m &&& 1 : Nat) : Int) = _
  rw [Nat.and_one_is_mod]
  rfl

theorem mem_packedDepths (d : Int) :
    d ∈ packedDepths ↔ d = 1 ∨ d = 2 ∨ d = 4 ∨ d = 8 ∨ d = 16 ∨ d = 32 ∨ d = 64 := by
  simp [packedDepths]

theorem PixPerByte_ok (d : Int) (hd : d ∈ packedDepths) :
    PixPerByte d = Except.ok ((8 : ℚ) / (d : ℚ)) := by
  rw [mem_packedDepths] at hd
  rcases hd with rfl | rfl | rfl | rfl | rfl | rfl | rfl <;>
    simp [PixPerByte, pure, Except.pure] <;> norm_num

theorem ceil_div_ppb (w d : Int) (hd : d ∈ packedDepths) :
    ceil ((w : ℚ) / ((8 : ℚ) / (d : ℚ))) = (((w * d + 7) / 8 : Int) : ℚ) := by
  have hd0 : (d : ℚ) ≠ 0 := by
    rw [mem_packedDepths] at hd
    rcases hd with rfl | rfl | rfl | rfl | rfl | rfl | rfl <;> norm_num
  have h : (w : ℚ) / ((8 : ℚ) / (d : ℚ)) = ((w * d : Int) : ℚ) / ((8 : Int) : ℚ) := by
    push_cast
    field_simp
  unfold ceil
  rw [h, ceil_intCast_div _ 8 (by norm_num)]
  have e : w * d + 8 - 1 = w * d + 7 := by ring
  rw [e]

theorem SizeFromDepth_packed (w h d : Int) (hd : d ∈ packedDepths) :
    SizeFromDepth w h d = Except.ok ((w * d + 7) / 8 * h) := by
  have h24 : d ≠ 24 := by
    rw [mem_packedDepths] at hd
    rcases hd with rfl | rfl | rfl | rfl | rfl | rfl | rfl <;> decide
  unfold SizeFromDepth
  rw [if_neg h24, PixPerByte_ok d hd]
  show Except.ok _ = _
  rw [ceil_div_ppb w d hd]
  have : (((w * d + 7) / 8 : Int) : ℚ) * (h : ℚ) = (((w * d + 7) / 8 * h : Int) : ℚ) := by
    push_cast; ring
  rw [this, toInt_intCast]

theorem SizeFromDepth_rgb (w h : Int) : SizeFromDepth w h 24 = Except.ok (w * h * 3) := by
  simp [SizeFromDepth, pure, Except.pure]

theorem WordAlignFromDepth_bytes (w d : Int) (hw : 0 ≤ w) (hd : d ∈ packedDepths) :
    WordAlignFromDepth w d =
      Except.ok (toInt ((((w * d + 7) / 8 + (w * d + 7) / 8 % 2 : Int) : ℚ) * ((8 : ℚ) / (d : ℚ)))) := by
  have hd0 : 0 < d := by
    rw [mem_packedDepths] at hd
    rcases hd with rfl | rfl | rfl | rfl | rfl | rfl | rfl <;> decide
  have hb : 0 ≤ (w * d + 7) / 8 := by
    have : 0 ≤ w * d := mul_nonneg hw (le_of_lt hd0)
    omega
  have e : (if (w * d + 7) / 8 % 2 ≠ 0 then (w * d + 7) / 8 + 1 else (w * d + 7) / 8)
      = (w * d + 7) / 8 + (w * d + 7) / 8 % 2 := by
    split <;> omega
  unfold WordAlignFromDepth
  rw [PixPerByte_ok d hd]
  show Except.ok _ = _
  rw [ceil_div_ppb w d hd, toInt_intCast, land_one_of_nonneg _ hb, e]

theorem toInt_of_eq (b c : Int) (p : ℚ) (h : (b : ℚ) * p = (c : ℚ)) :
    toInt ((b : ℚ) * p) = c := by
  rw [h, toInt_intCast]

theorem WordAlignFromDepth_closed (w d : Int) (hw : 0 ≤ w) (hd : d ∈ packedDepths) :
    WordAlignFromDepth w d =
      Except.ok (if d = 1 then 16 * ((w + 15) / 16)
        else if d = 2 then 8 * ((w + 7) / 8)
        else if d = 4 then 4 * ((w + 3) / 4)
        else if d = 8 then 2 * ((w + 1) / 2)
        else w) := by
  rw [WordAlignFromDepth_bytes w d hw hd]
  congr 1
  rw [mem_packedDepths] at hd
  rcases hd with rfl | rfl | rfl | rfl | rfl | rfl | rfl
  · apply toInt_of_eq
    have : ((w * 1 + 7) / 8 + (w * 1 + 7) / 8 % 2) * 8
        = (if (1 : Int) = 1 then 16 * ((w + 15) / 16) else 0) := by
      simp; omega
    simp only [if_true] at this ⊢
    rw [← this]; push_cast; ring
  · apply toInt_of_eq
    have : ((w * 2 + 7) / 8 + (w * 2 + 7) / 8 % 2) * 4 = 8 * ((w + 7) / 8) := by omega
    simp only [show ¬ ((2 : Int) = 1) by decide, if_false, if_true]
    rw [← this]; push_cast; ring
  · apply toInt_of_eq
    have : ((w * 4 + 7) / 8 + (w * 4 + 7) / 8 % 2) * 2 = 4 * ((w + 3) / 4) := by omega
    simp only [show ¬ ((4 : Int) = 1) by decide, show ¬ ((4 : Int) = 2) by decide, if_false, if_true]
    rw [← this]; push_cast; ring
  · apply toInt_of_eq
    have : ((w * 8 + 7) / 8 + (w * 8 + 7) / 8 % 2) * 1 = 2 * ((w + 1) / 2) := by omega
    simp only [show ¬ ((8 : Int) = 1) by decide, show ¬ ((8 : Int) = 2) by decide,
      show ¬ ((8 : Int) = 4) by decide, if_false, if_true]
    rw [← this]; push_cast; ring
  · apply toInt_of_eq
    have : ((w * 16 + 7) / 8 + (w * 16 + 7) / 8 % 2) = 2 * w := by omega
    simp only [show ¬ ((16 : Int) = 1) by decide, show ¬ ((16 : Int) = 2) by decide,
      show ¬ ((16 : Int) = 4) by decide, show ¬ ((16 : Int) = 8) by decide, if_false]
    rw [this]; push_cast; ring
  · apply toInt_of_eq
    have : ((w * 32 + 7) / 8 + (w * 32 + 7) / 8 % 2) = 4 * w := by omega
    simp only [show ¬ ((32 : Int) = 1) by decide, show ¬ ((32 : Int) = 2) by decide,
      show ¬ ((32 : Int) = 4) by decide, show ¬ ((32 : Int) = 8) by decide, if_false]
    rw [this]; push_cast; ring
  · apply toInt_of_eq
    have : ((w * 64 + 7) / 8 + (w * 64 + 7) / 8 % 2) = 8 * w := by omega
    simp only [show ¬ ((64 : Int) = 1) by decide, show ¬ ((64 : Int) = 2) by decide,
      show ¬ ((64 : Int) = 4) by decide, show ¬ ((64 : Int) = 8) by decide, if_false]
    rw [this]; push_cast; ring

theorem fillsEvenBytes_iff (v d : Int) (hd : 0 < d) : FillsEvenBytes v d ↔ ∃ k : Int, v * d = 16 * k := by
  have hdq : (d : ℚ) ≠ 0 := by exact_mod_cast (ne_of_gt hd)
  unfold FillsEvenBytes
  constructor
  · rintro ⟨k, hk⟩
    refine ⟨k, ?_⟩
    field_simp at hk
    have : ((v * d : Int) : ℚ) = ((16 * k : Int) : ℚ) := by push_cast; linarith
    exact_mod_cast this
  · rintro ⟨k, hk⟩
    refine ⟨k, ?_⟩
    have : (v : ℚ) * (d : ℚ) = 16 * (k : ℚ) := by exact_mod_cast hk
    field_simp
    linarith

theorem least_of_int (w d a k0 : Int) (hd : 0 < d) (h1 : w ≤ a) (h2 : a * d = 16 * k0)
    (h3 : ∀ v k : Int, w ≤ v → v * d = 16 * k → a ≤ v) :
    w ≤ a ∧ FillsEvenBytes a d ∧ ∀ v : Int, w ≤ v → FillsEvenBytes v d → a ≤ v := by
  refine ⟨h1, (fillsEvenBytes_iff a d hd).2 ⟨k0, h2⟩, ?_⟩
  intro v hv hf
  obtain ⟨k, hk⟩ := (fillsEvenBytes_iff v d hd).1 hf
  exact h3 v k hv hk

theorem WordAlignFromDepth_least (w d : Int) (hw : 0 ≤ w) (hd : d ∈ packedDepths) :
    ∃ a : Int, WordAlignFromDepth w d = Except.ok a ∧ w ≤ a ∧ FillsEvenBytes a d ∧
      ∀ v : Int, w ≤ v → FillsEvenBytes v d → a ≤ v := by
  rw [mem_packedDepths] at hd
  rcases hd with rfl | rfl | rfl | rfl | rfl | rfl | rfl
  · refine ⟨16 * ((w + 15) / 16), ?_, least_of_int w 1 (16 * ((w + 15) / 16)) ((w + 15) / 16) (by decide) (by omega) (by omega)
      (by intro v k hv hk; omega)⟩
    rw [WordAlignFromDepth_closed w 1 hw (by decide)]
    simp
  · refine ⟨8 * ((w + 7) / 8), ?_, least_of_int w 2 (8 * ((w + 7) / 8)) ((w + 7) / 8) (by decide) (by omega) (by omega)
      (by intro v k hv hk; omega)⟩
    rw [WordAlignFromDepth_closed w 2 hw (by decide)]
    simp
  · refine ⟨4 * ((w + 3) / 4), ?_, least_of_int w 4 (4 * ((w + 3) / 4)) ((w + 3) / 4) (by decide) (by omega) (by omega)
      (by intro v k hv hk; omega)⟩
    rw [WordAlignFromDepth_closed w 4 hw (by decide)]
    simp
  · refine ⟨2 * ((w + 1) / 2), ?_, least_of_int w 8 (2 * ((w + 1) / 2)) ((w + 1) / 2) (by decide) (by omega) (by omega)
      (by intro v k hv hk; omega)⟩
    rw [WordAlignFromDepth_closed w 8 hw (by decide)]
    simp
  · refine ⟨w, ?_, least_of_int w 16 (w) (w) (by decide) (by omega) (by omega)
      (by intro v k hv hk; omega)⟩
    rw [WordAlignFromDepth_closed w 16 hw (by decide)]
    simp
  · refine ⟨w, ?_, least_of_int w 32 (w) (2 * w) (by decide) (by omega) (by omega)
      (by intro v k hv hk; omega)⟩
    rw [WordAlignFromDepth_closed w 32 hw (by decide)]
    simp
  · refine ⟨w, ?_, least_of_int w 64 (w) (4 * w) (by decide) (by omega) (by omega)
      (by intro v k hv hk; omega)⟩
    rw [WordAlignFromDepth_closed w 64 hw (by decide)]
    simp

/-! ## The pixel density: claim -/

/-- C2: for every depth d in 1, 2, 4, 8, 16, 32, 64, `PixPerByte d` returns exactly the
rational 8/d. -/
theorem PixPerByte_exact (d : Int) (hd : d ∈ packedDepths) :
    PixPerByte d = Except.ok ((8 : ℚ) / (d : ℚ)) :=
  PixPerByte_ok d hd

/-- Witness of C2 at depth 16: half a pixel per byte. -/
theorem PixPerByte_exact_witness : PixPerByte 16 = Except.ok ((8 : ℚ) / ((16 : Int) : ℚ)) :=
  PixPerByte_exact 16 (by decide)

/-! ## The allocating routines: lemmas -/

theorem allocate_image_invalid (libc : Libc) (w h d : Int) (hbad : w < 1 ∨ h < 1 ∨ d < 1) :
    (allocate_image libc w h d).run =
      ([], Except.error (Err.fatal "allocate_image" "Invalid dimension"
        (some (if w < 1 then "width = " ++ toString w
          else if h < 1 then "height = " ++ toString h
          else "depth = " ++ toString d)))) := by
  by_cases hw : w < 1
  · simp [allocate_image, Prog.run, bind, liftM, monadLift, MonadLift.monadLift, Prog.lift,
      fatalerr, hw]
  · by_cases hh : h < 1
    · simp [allocate_image, Prog.run, bind, pure, liftM, monadLift, MonadLift.monadLift,
        Prog.lift, fatalerr, hw, hh]
    · have hd : d < 1 := by omega
      simp [allocate_image, Prog.run, bind, pure, liftM, monadLift, MonadLift.monadLift,
        Prog.lift, fatalerr, hw, hh, hd]

theorem mallocate_image_invalid (libc : Libc) (w h d : Int) (hbad : w < 1 ∨ h < 1 ∨ d < 1) :
    (mallocate_image libc w h d).run =
      ([], Except.error (Err.fatal "mallocate_image" "Invalid dimension"
        (some (if w < 1 then "width = " ++ toString w
          else if h < 1 then "height = " ++ toString h
          else "depth = " ++ toString d)))) := by
  by_cases hw : w < 1
  · simp [mallocate_image, Prog.run, bind, liftM, monadLift, MonadLift.monadLift, Prog.lift,
      fatalerr, hw]
  · by_cases hh : h < 1
    · simp [mallocate_image, Prog.run, bind, pure, liftM, monadLift, MonadLift.monadLift,
        Prog.lift, fatalerr, hw, hh]
    · have hd : d < 1 := by omega
      simp [mallocate_image, Prog.run, bind, pure, liftM, monadLift, MonadLift.monadLift,
        Prog.lift, fatalerr, hw, hh, hd]

theorem allocate_aligned_image_invalid (libc : Libc) (f : Repack) (w h d : Int)
    (hbad : w < 1 ∨ h < 1 ∨ d < 1) :
    (allocate_aligned_image libc f w h d).run =
      ([], Except.error (if w < 1 then
          Err.fatal "allocate_aligned_image" "Invalid width" (some (toString w))
        else if h < 1 then
          Err.fatal "allocate_aligned_image" "Invalid height" (some (toString h))
        else Err.fatal "allocate_aligned_image" "Invalid depth" (some (toString d)))) := by
  by_cases hw : w < 1
  · simp [allocate_aligned_image, Prog.run, bind, liftM, monadLift, MonadLift.monadLift,
      Prog.lift, fatalerr, hw]
  · by_cases hh : h < 1
    · simp [allocate_aligned_image, Prog.run, bind, pure, liftM, monadLift,
        MonadLift.monadLift, Prog.lift, fatalerr, hw, hh]
    · have hd : d < 1 := by omega
      simp [allocate_aligned_image, Prog.run, bind, pure, liftM, monadLift,
        MonadLift.monadLift, Prog.lift, fatalerr, hw, hh, hd]

theorem allocate_image_valid (libc : Libc) (w h d : Int) (hw : 1 ≤ w) (hh : 1 ≤ h) (hd : 1 ≤ d) :
    (allocate_image libc w h d).run =
      match SizeFromDepth w h d with
      | Except.error e => ([], Except.error e)
      | Except.ok n =>
        ([Event.alloc (n * 1)],
          if 0 ≤ n * 1 ∧ libc.grants (n * 1).toNat = true then
            Except.ok (List.replicate (n * 1).toNat 0)
          else Except.error (Err.sys "calloc_uchar" "calloc" "allocate_image : image")) := by
  have hw' : ¬ w < 1 := by omega
  have hh' : ¬ h < 1 := by omega
  have hd' : ¬ d < 1 := by omega
  simp only [allocate_image, Prog.run, bind, pure, liftM, monadLift, MonadLift.monadLift,
    Prog.lift, hw', hh', hd', if_false, calloc_uchar, calloc, syserr]
  cases SizeFromDepth w h d with
  | error e => rfl
  | ok n =>
    simp only [List.nil_append]
    split_ifs <;> rfl

theorem mem_supportedDepths (d : Int) :
    d ∈ supportedDepths ↔ d = 24 ∨ d ∈ packedDepths := by
  simp [supportedDepths, packedDepths]
  tauto

theorem PixPerByte_fatal (d : Int) (hd : d ∉ packedDepths) :
    PixPerByte d = Except.error
      (Err.fatal "PixPerByte" "depth != power of 2 between 1 and 64 (inclusive)" none) := by
  rw [mem_packedDepths] at hd
  simp only [not_or] at hd
  obtain ⟨h1, h2, h4, h8, h16, h32, h64⟩ := hd
  simp [PixPerByte, fatalerr, h1, h2, h4, h8, h16, h32, h64]

theorem SizeFromDepth_fatal (w h d : Int) (hd : d ∉ supportedDepths) :
    SizeFromDepth w h d = Except.error
      (Err.fatal "PixPerByte" "depth != power of 2 between 1 and 64 (inclusive)" none) := by
  rw [mem_supportedDepths, not_or] at hd
  unfold SizeFromDepth
  rw [if_neg hd.1, PixPerByte_fatal d hd.2]
  rfl

theorem SizeFromDepth_supported (w h d : Int) (hd : d ∈ supportedDepths) :
    SizeFromDepth w h d = Except.ok (if d = 24 then w * h * 3 else (w * d + 7) / 8 * h) := by
  rw [mem_supportedDepths] at hd
  by_cases h24 : d = 24
  · subst h24
    rw [SizeFromDepth_rgb]
    rfl
  · rw [if_neg h24]
    exact SizeFromDepth_packed w h d (hd.resolve_left h24)

theorem SizeFromDepth_nonneg (w h d n : Int) (hw : 0 ≤ w) (hh : 0 ≤ h) (hd : 0 ≤ d)
    (hn : SizeFromDepth w h d = Except.ok n) : 0 ≤ n := by
  by_cases hs : d ∈ supportedDepths
  · rw [SizeFromDepth_supported w h d hs] at hn
    injection hn with hn
    subst hn
    have hwd : 0 ≤ w * d := mul_nonneg hw hd
    split
    · exact mul_nonneg (mul_nonneg hw hh) (by decide)
    · exact mul_nonneg (by omega) hh
  · rw [SizeFromDepth_fatal w h d hs] at hn
    cases hn

theorem alloc_char_image_run (libc : Libc) (w h : Int) :
    (alloc_char_image libc w h).run =
      ([Event.alloc ((w * 8 + 7) / 8 * h * 1)],
        if 0 ≤ (w * 8 + 7) / 8 * h * 1 ∧ libc.grants ((w * 8 + 7) / 8 * h * 1).toNat = true then
          Except.ok (List.replicate ((w * 8 + 7) / 8 * h * 1).toNat 0)
        else Except.error (Err.sys "alloc_char_image" "calloc" "cdata")) := by
  simp only [alloc_char_image, CHAR_DEPTH, SizeFromDepth_packed w h 8 (by decide), Prog.run,
    bind, pure, liftM, monadLift, MonadLift.monadLift, Prog.lift, calloc, syserr,
    List.nil_append]
  split_ifs <;> rfl

theorem alloc_short_image_run (libc : Libc) (w h : Int) :
    (alloc_short_image libc w h).run =
      ([Event.alloc ((w * 16 + 7) / 8 * h * 1)],
        if 0 ≤ (w * 16 + 7) / 8 * h * 1 ∧ libc.grants ((w * 16 + 7) / 8 * h * 1).toNat = true then
          Except.ok (List.replicate ((w * 16 + 7) / 8 * h * 1).toNat 0)
        else Except.error (Err.sys "alloc_short_image" "calloc" "sdata")) := by
  simp only [alloc_short_image, SHORT_DEPTH, SizeFromDepth_packed w h 16 (by decide), Prog.run,
    bind, pure, liftM, monadLift, MonadLift.monadLift, Prog.lift, calloc, syserr,
    List.nil_append]
  split_ifs <;> rfl

theorem alloc_int_image_run (libc : Libc) (w h : Int) :
    (alloc_int_image libc w h).run =
      ([Event.alloc (w * h * 4)],
        if 0 ≤ w * h * 4 ∧ libc.grants (w * h * 4).toNat = true then
          Except.ok (List.replicate (w * h * 4).toNat 0)
        else Except.error (Err.sys "alloc_int_image" "calloc" "image")) := by
  simp only [alloc_int_image, Prog.run, bind, pure, liftM, monadLift, MonadLift.monadLift,
    Prog.lift, calloc, syserr, List.nil_append]
  split_ifs <;> rfl

theorem init_image_data_run (libc : Libc) (w h d : Int) :
    (init_image_data libc w h d).run =
      match SizeFromDepth w h d with
      | Except.error e => ([], Except.error e)
      | Except.ok n =>
        ([Event.alloc (n * 1)],
          if 0 ≤ n * 1 ∧ libc.grants (n * 1).toNat = true then
            Except.ok (memset ((List.range (n * 1).toNat).map (libc.junk (n * 1).toNat)) 0 (n * 1), n)
          else Except.error (Err.sys "init_image_data" "maloc" "data")) := by
  simp only [init_image_data, Prog.run, bind, pure, liftM, monadLift, MonadLift.monadLift,
    Prog.lift, malloc, syserr]
  cases SizeFromDepth w h d with
  | error e => rfl
  | ok n =>
    simp only [List.nil_append]
    split_ifs <;> rfl

/-! ## The allocating routines: claims -/

/-- C8, as stated, fails: `alloc_char_image`, `alloc_short_image`, `alloc_int_image` and
`init_image_data` have no dimension check; with width 0 (or height 0) each of them asks the
allocator for a block of 0 bytes and, when that is granted, returns it without any error. -/
theorem alloc_zero_dimension_not_rejected :
    (alloc_char_image roomy 0 5).run = ([Event.alloc 0], Except.ok []) ∧
      (alloc_short_image roomy 0 5).run = ([Event.alloc 0], Except.ok []) ∧
      (alloc_int_image roomy 5 0).run = ([Event.alloc 0], Except.ok []) ∧
      (init_image_data roomy 0 5 8).run = ([Event.alloc 0], Except.ok ([], 0)) := by
  refine ⟨?_, ?_, ?_, ?_⟩
  · rw [alloc_char_image_run]; rfl
  · rw [alloc_short_image_run]; rfl
  · rw [alloc_int_image_run]; rfl
  · rw [init_image_data_run, SizeFromDepth_packed 0 5 8 (by decide)]; rfl

/-- C8, amended: `allocate_image`, `mallocate_image` and `allocate_aligned_image` called with
width = 0 or height = 0 or depth = 0 end in the invalid-argument error (a `fatalerr` of the
routine itself) with an empty allocation log, and so does `init_image_data` called with
depth = 0 (the `fatalerr` of `PixPerByte`). -/
theorem alloc_zero_dimension_rejected (libc : Libc) (f : Repack) (w h d : Int)
    (hzero : w = 0 ∨ h = 0 ∨ d = 0) :
    (∃ detail, (allocate_image libc w h d).run =
        ([], Except.error (Err.fatal "allocate_image" "Invalid dimension" (some detail)))) ∧
      (∃ detail, (mallocate_image libc w h d).run =
        ([], Except.error (Err.fatal "mallocate_image" "Invalid dimension" (some detail)))) ∧
      (∃ msg detail, (allocate_aligned_image libc f w h d).run =
        ([], Except.error (Err.fatal "allocate_aligned_image" msg (some detail)))) ∧
      (d = 0 → ∃ msg, (init_image_data libc w h d).run =
        ([], Except.error (Err.fatal "PixPerByte" msg none))) := by
  have hbad : w < 1 ∨ h < 1 ∨ d < 1 := by omega
  refine ⟨⟨_, allocate_image_invalid libc w h d hbad⟩,
    ⟨_, mallocate_image_invalid libc w h d hbad⟩, ?_, ?_⟩
  · rw [allocate_aligned_image_invalid libc f w h d hbad]
    split_ifs
    · exact ⟨_, _, rfl⟩
    · exact ⟨_, _, rfl⟩
    · exact ⟨_, _, rfl⟩
  · intro hd
    subst hd
    rw [init_image_data_run, SizeFromDepth_fatal w h 0 (by decide)]
    exact ⟨_, rfl⟩

/-- Witness of the amended C8 at width 0, height 5, depth 8. -/
theorem alloc_zero_dimension_rejected_witness :
    (∃ detail, (allocate_image roomy 0 5 8).run =
        ([], Except.error (Err.fatal "allocate_image" "Invalid dimension" (some detail)))) ∧
      (∃ detail, (mallocate_image roomy 0 5 8).run =
        ([], Except.error (Err.fatal "mallocate_image" "Invalid dimension" (some detail)))) ∧
      (∃ msg detail, (allocate_aligned_image roomy (fun _ _ _ _ => none) 0 5 8).run =
        ([], Except.error (Err.fatal "allocate_aligned_image" msg (some detail)))) ∧
      ((8 : Int) = 0 → ∃ msg, (init_image_data roomy 0 5 8).run =
        ([], Except.error (Err.fatal "PixPerByte" msg none))) :=
  alloc_zero_dimension_rejected roomy (fun _ _ _ _ => none) 0 5 8 (Or.inl rfl)

/-- C10: for every depth d outside 1, 2, 4, 8, 16, 32, 64, `PixPerByte d` ends in a fatal error
and returns no value; for every depth d outside 1, 2, 4, 8, 16, 24, 32, 64 and every w and h,
`SizeFromDepth w h d` ends in a fatal error and returns no size; depth 3 is such a depth. -/
theorem unsupported_depth_fatal (d : Int) :
    (d ∉ packedDepths → PixPerByte d = Except.error
        (Err.fatal "PixPerByte" "depth != power of 2 between 1 and 64 (inclusive)" none)) ∧
      (d ∉ supportedDepths → ∀ w h : Int, SizeFromDepth w h d = Except.error
        (Err.fatal "PixPerByte" "depth != power of 2 between 1 and 64 (inclusive)" none)) ∧
      PixPerByte 3 = Except.error
        (Err.fatal "PixPerByte" "depth != power of 2 between 1 and 64 (inclusive)" none) ∧
      SizeFromDepth 10 2 3 = Except.error
        (Err.fatal "PixPerByte" "depth != power of 2 between 1 and 64 (inclusive)" none) :=
  ⟨PixPerByte_fatal d, fun hd w h => SizeFromDepth_fatal w h d hd,
    PixPerByte_fatal 3 (by decide), SizeFromDepth_fatal 10 2 3 (by decide)⟩

/-- Witness of C10 at depth 3. -/
theorem unsupported_depth_fatal_witness :
    PixPerByte 3 = Except.error
        (Err.fatal "PixPerByte" "depth != power of 2 between 1 and 64 (inclusive)" none) ∧
      ∀ w h : Int, SizeFromDepth w h 3 = Except.error
        (Err.fatal "PixPerByte" "depth != power of 2 between 1 and 64 (inclusive)" none) :=
  ⟨(unsupported_depth_fatal 3).1 (by decide), (unsupported_depth_fatal 3).2.1 (by decide)⟩

/-! ## Buffers of the allocating routines: lemmas -/

theorem mallocate_image_valid (libc : Libc) (w h d : Int) (hw : 1 ≤ w) (hh : 1 ≤ h) (hd : 1 ≤ d) :
    (mallocate_image libc w h d).run =
      match SizeFromDepth w h d with
      | Except.error e => ([], Except.error e)
      | Except.ok n =>
        ([Event.alloc n],
          if 0 ≤ n ∧ libc.grants n.toNat = true then
            Except.ok ((List.range n.toNat).map (libc.junk n.toNat))
          else Except.error (Err.sys "malloc_uchar" "malloc" "allocate_image : image")) := by
  have hw' : ¬ w < 1 := by omega
  have hh' : ¬ h < 1 := by omega
  have hd' : ¬ d < 1 := by omega
  simp only [mallocate_image, Prog.run, bind, pure, liftM, monadLift, MonadLift.monadLift,
    Prog.lift, hw', hh', hd', if_false, malloc_uchar, malloc, syserr]
  cases SizeFromDepth w h d with
  | error e => rfl
  | ok n =>
    simp only [List.nil_append]
    split_ifs <;> rfl

theorem supportedDepths_pos (d : Int) (hd : d ∈ supportedDepths) : 1 ≤ d := by
  simp only [supportedDepths, List.mem_cons, List.mem_singleton, List.not_mem_nil,
    or_false] at hd
  omega

/-- C14: for every w, h, d and the same allocator, `mallocate_image w h d` ends in an error
exactly when `allocate_image w h d` does, and in a fatal error (`fatalerr`) exactly when
`allocate_image w h d` does: a dimension error of the one is a dimension error of the other
with the same message and the same parameter name and value, and the fatal error of
`PixPerByte` is reached by both or by neither; when both return a buffer, the two buffers have
the same byte length, `SizeFromDepth w h d`. -/
theorem mallocate_image_agrees (libc : Libc) (w h d : Int) :
    ((∃ e, (allocate_image libc w h d).run.2 = Except.error e) ↔
        (∃ e, (mallocate_image libc w h d).run.2 = Except.error e)) ∧
      ((∃ routine msg detail, (allocate_image libc w h d).run.2 =
          Except.error (Err.fatal routine msg detail)) ↔
        (∃ routine msg detail, (mallocate_image libc w h d).run.2 =
          Except.error (Err.fatal routine msg detail))) ∧
      (∀ msg detail, (allocate_image libc w h d).run.2 =
          Except.error (Err.fatal "allocate_image" msg detail) ↔
        (mallocate_image libc w h d).run.2 =
          Except.error (Err.fatal "mallocate_image" msg detail)) ∧
      (∀ msg detail, (allocate_image libc w h d).run.2 =
          Except.error (Err.fatal "PixPerByte" msg detail) ↔
        (mallocate_image libc w h d).run.2 =
          Except.error (Err.fatal "PixPerByte" msg detail)) ∧
      (∀ b1 b2 : Buffer, (allocate_image libc w h d).run.2 = Except.ok b1 →
        (mallocate_image libc w h d).run.2 = Except.ok b2 →
        ∃ n : Int, SizeFromDepth w h d = Except.ok n ∧
          (b1.length : Int) = n ∧ (b2.length : Int) = n) := by
  by_cases hbad : w < 1 ∨ h < 1 ∨ d < 1
  · rw [allocate_image_invalid libc w h d hbad, mallocate_image_invalid libc w h d hbad]
    refine ⟨⟨fun _ => ⟨_, rfl⟩, fun _ => ⟨_, rfl⟩⟩,
      ⟨fun _ => ⟨_, _, _, rfl⟩, fun _ => ⟨_, _, _, rfl⟩⟩, ?_, ?_, ?_⟩
    · intro msg detail
      simp only [Except.error.injEq, Err.fatal.injEq, true_and]
    · intro msg detail
      simp only [Except.error.injEq, Err.fatal.injEq]
      constructor
      · rintro ⟨hr, -⟩
        exact absurd hr (by decide)
      · rintro ⟨hr, -⟩
        exact absurd hr (by decide)
    · intro b1 b2 h1
      cases h1
  · have hw : 1 ≤ w := by omega
    have hh : 1 ≤ h := by omega
    have hd : 1 ≤ d := by omega
    rw [allocate_image_valid libc w h d hw hh hd, mallocate_image_valid libc w h d hw hh hd]
    cases hs : SizeFromDepth w h d with
    | error e =>
      refine ⟨Iff.rfl, Iff.rfl, ?_, fun _ _ => Iff.rfl, ?_⟩
      · intro msg detail
        by_cases hsup : d ∈ supportedDepths
        · rw [SizeFromDepth_supported w h d hsup] at hs
          cases hs
        · rw [SizeFromDepth_fatal w h d hsup] at hs
          injection hs with hs
          subst hs
          simp only [Except.error.injEq, Err.fatal.injEq]
          constructor
          · rintro ⟨hr, -⟩
            exact absurd hr (by decide)
          · rintro ⟨hr, -⟩
            exact absurd hr (by decide)
      · intro b1 b2 h1
        cases h1
    | ok n =>
      simp only [mul_one]
      by_cases hg : 0 ≤ n ∧ libc.grants n.toNat = true
      · simp only [if_pos hg]
        refine ⟨⟨?_, ?_⟩, ⟨?_, ?_⟩, ?_, ?_, ?_⟩
        · rintro ⟨_, he⟩
          cases he
        · rintro ⟨_, he⟩
          cases he
        · rintro ⟨_, _, _, he⟩
          cases he
        · rintro ⟨_, _, _, he⟩
          cases he
        · intro msg detail
          constructor <;> intro he <;> cases he
        · intro msg detail
          constructor <;> intro he <;> cases he
        · intro b1 b2 h1 h2
          injection h1 with h1
          injection h2 with h2
          subst h1
          subst h2
          refine ⟨n, rfl, ?_, ?_⟩
          · rw [List.length_replicate]
            exact Int.toNat_of_nonneg hg.1
          · rw [List.length_map, List.length_range]
            exact Int.toNat_of_nonneg hg.1
      · simp only [if_neg hg]
        refine ⟨⟨fun _ => ⟨_, rfl⟩, fun _ => ⟨_, rfl⟩⟩, ⟨?_, ?_⟩, ?_, ?_, ?_⟩
        · rintro ⟨_, _, _, he⟩
          cases he
        · rintro ⟨_, _, _, he⟩
          cases he
        · intro msg detail
          constructor <;> intro he <;> cases he
        · intro msg detail
          constructor <;> intro he <;> cases he
        · intro b1 b2 h1
          cases h1

theorem wrap32_eq_self_iff (x : Int) : wrap32 x = x ↔ -2 ^ 31 ≤ x ∧ x ≤ 2 ^ 31 - 1 := by
  unfold wrap32
  omega

theorem wrap32_mul3 (x : Int) : wrap32 (wrap32 x * 3) = wrap32 (x * 3) := by
  unfold wrap32
  omega

/-- C17: `SizeFromDepth` has no overflow guard: with `int` a 32-bit two's-complement integer
that wraps around, for every w >= 1 and h >= 1 the value of `SizeFromDepth w h 24` is the
product `w*h*3` if and only if `w*h*3 <= 2^31 - 1`; at w = h = 32768 the value is
-1073741824, not the product 3221225472. -/
theorem SizeFromDepth32_rgb_exact_iff (w h : Int) (hw : 1 ≤ w) (hh : 1 ≤ h) :
    (SizeFromDepth32 w h 24 = Except.ok (w * h * 3) ↔ w * h * 3 ≤ 2 ^ 31 - 1) ∧
      SizeFromDepth32 32768 32768 24 = Except.ok (-1073741824) ∧
      (32768 : Int) * 32768 * 3 = 3221225472 := by
  have hpos : 1 ≤ w * h := one_le_mul_of_one_le_of_one_le hw hh
  have hval : ∀ a b : Int, SizeFromDepth32 a b 24 = Except.ok (wrap32 (a * b * 3)) := by
    intro a b
    simp only [SizeFromDepth32, if_true, wrap32_mul3]
    rfl
  refine ⟨?_, ?_, by decide⟩
  · rw [hval]
    constructor
    · intro he
      injection he with he
      exact ((wrap32_eq_self_iff _).1 he).2
    · intro hle
      rw [(wrap32_eq_self_iff _).2 ⟨by omega, hle⟩]
  · rw [hval]
    rfl

/-- Witness of C17 at width 4 and height 5. -/
theorem SizeFromDepth32_rgb_exact_iff_witness :
    (SizeFromDepth32 4 5 24 = Except.ok (4 * 5 * 3) ↔ (4 : Int) * 5 * 3 ≤ 2 ^ 31 - 1) ∧
      SizeFromDepth32 32768 32768 24 = Except.ok (-1073741824) ∧
      (32768 : Int) * 32768 * 3 = 3221225472 :=
  SizeFromDepth32_rgb_exact_iff 4 5 (by decide) (by decide)

theorem SizeFromDepth_le_of_le (w1 w2 h1 h2 d : Int) (hd : d ∈ supportedDepths)
    (hw : 0 ≤ w1) (hh : 0 ≤ h1) (hw12 : w1 ≤ w2) (hh12 : h1 ≤ h2) :
    ∃ n m : Int, SizeFromDepth w1 h1 d = Except.ok n ∧ SizeFromDepth w2 h2 d = Except.ok m ∧
      n ≤ m := by
  have hd1 := supportedDepths_pos d hd
  refine ⟨_, _, SizeFromDepth_supported w1 h1 d hd, SizeFromDepth_supported w2 h2 d hd, ?_⟩
  split
  · exact mul_le_mul_of_nonneg_right (mul_le_mul hw12 hh12 hh (by omega)) (by decide)
  · have hwd : w1 * d ≤ w2 * d := mul_le_mul_of_nonneg_right hw12 (by omega)
    have hwd0 : 0 ≤ w1 * d := mul_nonneg hw (by omega)
    have hb : (w1 * d + 7) / 8 ≤ (w2 * d + 7) / 8 := by omega
    exact mul_le_mul hb hh12 hh (by omega)

/-! ## The machine layer: rounding and conversion lemmas -/

theorem ldiff_one (m : Nat) : Nat.ldiff 1 m = (m + 1) % 2 := by
  apply Nat.eq_of_testBit_eq
  intro i
  rw [Nat.testBit_ldiff]
  cases i with
  | zero =>
    simp only [Nat.testBit_zero]
    rcases Nat.mod_two_eq_zero_or_one m with h | h <;>
      simp [h, Nat.add_mod]
  | succ i =>
    have h1 : (1 : Nat).testBit (i + 1) = false := by simp [Nat.testBit_succ]
    have h2 : ((m + 1) % 2).testBit (i + 1) = false := by
      rcases Nat.mod_two_eq_zero_or_one (m + 1) with h | h <;> simp [h, Nat.testBit_succ]
    rw [h1, h2]
    rfl

theorem land_one (n : Int) : Int.land n 1 = n % 2 := by
  cases n with
  | ofNat m => exact land_one_of_nonneg _ (Int.ofNat_nonneg m)
  | negSucc m =>
    show ((Nat.ldiff 1 m : Nat) : Int) = _
    rw [ldiff_one, Int.negSucc_eq]
    omega

theorem ulp32_cases (n : Int) :
    (ulp32 n = 1 ∧ -16777216 < n ∧ n < 16777216) ∨
    (ulp32 n = 2 ∧ -33554432 < n ∧ n < 33554432 ∧ (n ≤ -16777216 ∨ 16777216 ≤ n)) ∨
    (ulp32 n = 4 ∧ -67108864 < n ∧ n < 67108864 ∧ (n ≤ -33554432 ∨ 33554432 ≤ n)) ∨
    (ulp32 n = 8 ∧ -134217728 < n ∧ n < 134217728 ∧ (n ≤ -67108864 ∨ 67108864 ≤ n)) ∨
    (ulp32 n = 16 ∧ -268435456 < n ∧ n < 268435456 ∧ (n ≤ -134217728 ∨ 134217728 ≤ n)) ∨
    (ulp32 n = 32 ∧ -536870912 < n ∧ n < 536870912 ∧ (n ≤ -268435456 ∨ 268435456 ≤ n)) ∨
    (ulp32 n = 64 ∧ -1073741824 < n ∧ n < 1073741824 ∧ (n ≤ -536870912 ∨ 536870912 ≤ n)) ∨
    (ulp32 n = 128 ∧ -2147483648 < n ∧ n < 2147483648 ∧
      (n ≤ -1073741824 ∨ 1073741824 ≤ n)) ∨
    (ulp32 n = 256 ∧ (n ≤ -2147483648 ∨ 2147483648 ≤ n)) := by
  by_cases h0 : -16777216 < n ∧ n < 16777216
  · exact Or.inl ⟨by unfold ulp32; rw [if_pos h0], by omega⟩
  refine Or.inr ?_
  by_cases h1 : -33554432 < n ∧ n < 33554432
  · exact Or.inl ⟨by unfold ulp32; rw [if_neg h0, if_pos h1], by omega⟩
  refine Or.inr ?_
  by_cases h2 : -67108864 < n ∧ n < 67108864
  · exact Or.inl ⟨by unfold ulp32; rw [if_neg h0, if_neg h1, if_pos h2], by omega⟩
  refine Or.inr ?_
  by_cases h3 : -134217728 < n ∧ n < 134217728
  · exact Or.inl ⟨by unfold ulp32; rw [if_neg h0, if_neg h1, if_neg h2, if_pos h3], by omega⟩
  refine Or.inr ?_
  by_cases h4 : -268435456 < n ∧ n < 268435456
  · exact Or.inl ⟨by unfold ulp32; rw [if_neg h0, if_neg h1, if_neg h2, if_neg h3, if_pos h4],
      by omega⟩
  refine Or.inr ?_
  by_cases h5 : -536870912 < n ∧ n < 536870912
  · exact Or.inl ⟨by unfold ulp32; rw [if_neg h0, if_neg h1, if_neg h2, if_neg h3, if_neg h4,
      if_pos h5], by omega⟩
  refine Or.inr ?_
  by_cases h6 : -1073741824 < n ∧ n < 1073741824
  · exact Or.inl ⟨by unfold ulp32; rw [if_neg h0, if_neg h1, if_neg h2, if_neg h3, if_neg h4,
      if_neg h5, if_pos h6], by omega⟩
  refine Or.inr ?_
  by_cases h7 : -2147483648 < n ∧ n < 2147483648
  · exact Or.inl ⟨by unfold ulp32; rw [if_neg h0, if_neg h1, if_neg h2, if_neg h3, if_neg h4,
      if_neg h5, if_neg h6, if_pos h7], by omega⟩
  · exact Or.inr ⟨by unfold ulp32; rw [if_neg h0, if_neg h1, if_neg h2, if_neg h3, if_neg h4,
      if_neg h5, if_neg h6, if_neg h7], by omega⟩

theorem roundF32_of_exact (n : Int) (h0 : 0 ≤ n)
    (h : n ≤ 16777216 ∨ (n % 2 = 0 ∧ n ≤ 33554432) ∨ (n % 4 = 0 ∧ n ≤ 67108864) ∨
      (n % 8 = 0 ∧ n ≤ 134217728) ∨ (n % 16 = 0 ∧ n ≤ 268435456) ∨
      (n % 32 = 0 ∧ n ≤ 536870912) ∨ (n % 64 = 0 ∧ n ≤ 1073741824) ∨
      (n % 128 = 0 ∧ n ≤ 2147483648)) :
    roundF32 n = n := by
  unfold roundF32
  rcases ulp32_cases n with
    ⟨hu, _⟩ | ⟨hu, _⟩ | ⟨hu, _⟩ | ⟨hu, _⟩ | ⟨hu, _⟩ | ⟨hu, _⟩ | ⟨hu, _⟩ | ⟨hu, _⟩ | ⟨hu, _⟩ <;>
    rw [hu] <;> unfold roundTo <;> repeat' split
  all_goals omega

theorem roundF32_of_le (n : Int) (h0 : 0 ≤ n) (h : n ≤ 16777216) : roundF32 n = n :=
  roundF32_of_exact n h0 (Or.inl h)

theorem roundF32_even (n : Int) (hn : n % 2 = 0) : roundF32 n % 2 = 0 := by
  unfold roundF32
  rcases ulp32_cases n with
    ⟨hu, _⟩ | ⟨hu, _⟩ | ⟨hu, _⟩ | ⟨hu, _⟩ | ⟨hu, _⟩ | ⟨hu, _⟩ | ⟨hu, _⟩ | ⟨hu, _⟩ | ⟨hu, _⟩ <;>
    rw [hu] <;> unfold roundTo <;> repeat' split
  all_goals omega

theorem roundF32_range (n : Int) (h0 : 0 ≤ n) (hhi : n ≤ 2147483647) :
    0 ≤ roundF32 n ∧ roundF32 n ≤ 2147483648 := by
  unfold roundF32
  rcases ulp32_cases n with
    ⟨hu, _⟩ | ⟨hu, _⟩ | ⟨hu, _⟩ | ⟨hu, _⟩ | ⟨hu, _⟩ | ⟨hu, _⟩ | ⟨hu, _⟩ | ⟨hu, _⟩ | ⟨hu, _⟩ <;>
    rw [hu] <;> unfold roundTo <;> repeat' split
  all_goals omega

theorem toInt32_intCast (n : Int) : toInt32 (n : ℚ) = storeInt32 n := by
  unfold toInt32 storeInt32
  have h1 : ((INT_MIN : Int) : ℚ) - 1 < (n : ℚ) ↔ INT_MIN ≤ n := by
    rw [← Int.cast_one, ← Int.cast_sub, Int.cast_lt]
    omega
  have h2 : (n : ℚ) < ((INT_MAX : Int) : ℚ) + 1 ↔ n ≤ INT_MAX := by
    rw [← Int.cast_one, ← Int.cast_add, Int.cast_lt]
    omega
  simp only [h1, h2, toInt_intCast]

theorem storeInt32_of_fits (n : Int) (hlo : -2147483648 ≤ n) (hhi : n ≤ 2147483647) :
    storeInt32 n = n := by
  unfold storeInt32
  rw [if_pos]
  exact ⟨hlo, hhi⟩

theorem toInt32_of_fits (n : Int) (hlo : -2147483648 ≤ n) (hhi : n ≤ 2147483647) :
    toInt32 (n : ℚ) = n := by
  rw [toInt32_intCast, storeInt32_of_fits n hlo hhi]

theorem toInt32_eq_toInt (x : ℚ) (hlo : (-2147483648 : ℚ) ≤ x) (hhi : x ≤ 2147483647) :
    toInt32 x = toInt x := by
  unfold toInt32
  rw [if_pos]
  constructor
  · have : ((INT_MIN : Int) : ℚ) = -2147483648 := by norm_num [INT_MIN]
    rw [this]
    linarith
  · have : ((INT_MAX : Int) : ℚ) = 2147483647 := by norm_num [INT_MAX]
    rw [this]
    linarith

/-- The byte count of a line before the word alignment, as the machine computes it. -/
theorem SizeFromDepth32_packed (w h d : Int) (hd : d ∈ packedDepths) :
    SizeFromDepth32 w h d =
      Except.ok (toInt32 (((roundF32 w * d + 7) / 8 * h : Int) : ℚ)) := by
  have h24 : d ≠ 24 := by
    rw [mem_packedDepths] at hd
    rcases hd with rfl | rfl | rfl | rfl | rfl | rfl | rfl <;> decide
  unfold SizeFromDepth32 toFloat
  rw [if_neg h24, PixPerByte_ok d hd]
  show Except.ok _ = _
  rw [ceil_div_ppb (roundF32 w) d hd]
  have e : (((roundF32 w * d + 7) / 8 : Int) : ℚ) * (h : ℚ)
      = (((roundF32 w * d + 7) / 8 * h : Int) : ℚ) := by
    push_cast; ring
  rw [e]

theorem SizeFromDepth32_rgb (w h : Int) :
    SizeFromDepth32 w h 24 = Except.ok (wrap32 (wrap32 (w * h) * 3)) := by
  simp only [SizeFromDepth32, if_true]
  rfl

theorem SizeFromDepth32_exact (w h d : Int) (hd : d ∈ packedDepths) (hw0 : 0 ≤ w)
    (hw : w ≤ 16777216) (hlo : -2147483648 ≤ (w * d + 7) / 8 * h)
    (hhi : (w * d + 7) / 8 * h ≤ 2147483647) :
    SizeFromDepth32 w h d = Except.ok ((w * d + 7) / 8 * h) := by
  rw [SizeFromDepth32_packed w h d hd, roundF32_of_le w hw0 hw, toInt32_of_fits _ hlo hhi]

theorem WordAlignFromDepth32_bytes (w d : Int) (hd : d ∈ packedDepths) :
    WordAlignFromDepth32 w d =
      Except.ok (toInt32 ((roundF32 (alignedBytes32
        (toInt32 (((roundF32 w * d + 7) / 8 : Int) : ℚ))) : ℚ) * ((8 : ℚ) / (d : ℚ)))) := by
  unfold WordAlignFromDepth32 toFloat alignedBytes32
  rw [PixPerByte_ok d hd]
  show Except.ok _ = _
  rw [ceil_div_ppb (roundF32 w) d hd]

theorem SizeFromDepth32_value (w h d : Int) (hd : d ∈ packedDepths) :
    SizeFromDepth32 w h d = Except.ok (storeInt32 ((roundF32 w * d + 7) / 8 * h)) := by
  rw [SizeFromDepth32_packed w h d hd, toInt32_intCast]

theorem SizeFromDepth32_of_exact (w h d : Int) (hd : d ∈ packedDepths)
    (hr : roundF32 w = w) (hlo : -2147483648 ≤ (w * d + 7) / 8 * h)
    (hhi : (w * d + 7) / 8 * h ≤ 2147483647) :
    SizeFromDepth32 w h d = Except.ok ((w * d + 7) / 8 * h) := by
  rw [SizeFromDepth32_packed w h d hd, hr, toInt32_of_fits _ hlo hhi]

theorem alignedBytes32_of_nonneg (b : Int) (h0 : 0 ≤ b) (h1 : b ≤ 2147483646) :
    alignedBytes32 b = b + b % 2 := by
  unfold alignedBytes32
  rw [land_one]
  split
  · rw [(wrap32_eq_self_iff _).2 (by omega)]
    omega
  · omega

theorem alignedBytes32_even (b : Int) : alignedBytes32 b % 2 = 0 := by
  unfold alignedBytes32
  rw [land_one]
  unfold wrap32
  split <;> omega

theorem WordAlignFromDepth32_exact (w d : Int) (hd : d ∈ packedDepths) (hw0 : 0 ≤ w)
    (hr : roundF32 w = w) (hb : (w * d + 7) / 8 ≤ 2147483646)
    (hr2 : roundF32 ((w * d + 7) / 8 + (w * d + 7) / 8 % 2)
      = (w * d + 7) / 8 + (w * d + 7) / 8 % 2)
    (hfit : ((w * d + 7) / 8 + (w * d + 7) / 8 % 2) * 8 ≤ 2147483647 * d) :
    WordAlignFromDepth32 w d = WordAlignFromDepth w d := by
  have hd0 : 0 < d := by
    rw [mem_packedDepths] at hd
    omega
  have hwd : 0 ≤ w * d := mul_nonneg hw0 (le_of_lt hd0)
  have hb0 : 0 ≤ (w * d + 7) / 8 := by omega
  rw [WordAlignFromDepth32_bytes w d hd, WordAlignFromDepth_bytes w d hw0 hd, hr,
    toInt32_of_fits _ (by omega) (by omega), alignedBytes32_of_nonneg _ hb0 hb, hr2]
  congr 1
  have hdq : (0 : ℚ) < (d : ℚ) := by exact_mod_cast hd0
  have hbq : (0 : ℚ) ≤ (((w * d + 7) / 8 + (w * d + 7) / 8 % 2 : Int) : ℚ) := by
    have : (0 : Int) ≤ (w * d + 7) / 8 + (w * d + 7) / 8 % 2 := by omega
    exact_mod_cast this
  apply toInt32_eq_toInt
  · have : (0 : ℚ) ≤ (((w * d + 7) / 8 + (w * d + 7) / 8 % 2 : Int) : ℚ) * (8 / (d : ℚ)) :=
      mul_nonneg hbq (by positivity)
    linarith
  · have hq : ((((w * d + 7) / 8 + (w * d + 7) / 8 % 2) * 8 : Int) : ℚ)
        ≤ ((2147483647 * d : Int) : ℚ) := by exact_mod_cast hfit
    push_cast at hq
    rw [← mul_div_assoc, div_le_iff₀ hdq]
    push_cast
    linarith

theorem WordAlignFromDepth32_of_le (w d : Int) (hd : d ∈ packedDepths) (hw0 : 0 ≤ w)
    (hw : w ≤ 16777216) : WordAlignFromDepth32 w d = WordAlignFromDepth w d := by
  have hd' := hd
  rw [mem_packedDepths] at hd'
  apply WordAlignFromDepth32_exact w d hd hw0 (roundF32_of_le w hw0 hw)
  · rcases hd' with rfl | rfl | rfl | rfl | rfl | rfl | rfl <;> omega
  · apply roundF32_of_exact
    · rcases hd' with rfl | rfl | rfl | rfl | rfl | rfl | rfl <;> omega
    · rcases hd' with rfl | rfl | rfl | rfl | rfl | rfl | rfl <;> omega
  · rcases hd' with rfl | rfl | rfl | rfl | rfl | rfl | rfl <;> omega

/-- The value of `WordAlignFromDepth32` in integers: `q` is the aligned byte count, rounded to
binary32, times the pixels per byte. -/
theorem WordAlignFromDepth32_value (w d q : Int) (hd : d ∈ packedDepths)
    (hq : roundF32 (alignedBytes32 (storeInt32 ((roundF32 w * d + 7) / 8))) * 8 = q * d) :
    WordAlignFromDepth32 w d = Except.ok (storeInt32 q) := by
  have hd0 : (d : ℚ) ≠ 0 := by
    rw [mem_packedDepths] at hd
    rcases hd with rfl | rfl | rfl | rfl | rfl | rfl | rfl <;> norm_num
  rw [WordAlignFromDepth32_bytes w d hd, toInt32_intCast]
  have hqq := congrArg (fun z : Int => (z : ℚ)) hq
  simp only [Int.cast_mul] at hqq
  have e : ∀ g : ℚ, g * ((8 : Int) : ℚ) = (q : ℚ) * (d : ℚ) → g * (8 / (d : ℚ)) = (q : ℚ) := by
    intro g hg
    field_simp
    have : ((8 : Int) : ℚ) = 8 := by norm_num
    rw [this] at hg
    linarith
  rw [e _ hqq, toInt32_intCast]

theorem width_16_32_value (w : Int) (hw0 : 0 ≤ w) :
    width_16_32 w =
      if w % 16 ≠ 0 then wrap32 (storeInt32 ((w + 15) / 16) * 16) else w := by
  unfold width_16_32 cmod
  rw [Int.tmod_eq_emod hw0 (by decide)]
  have h := ceil_intCast_div w 16 (by decide)
  have e : ceil ((w : ℚ) / 16) = (((w + 15) / 16 : Int) : ℚ) := by
    unfold ceil
    have e1 : w + 16 - 1 = w + 15 := by ring
    rw [e1] at h
    rw [← h]
    norm_num
  simp only [e, toInt32_intCast]

theorem width_16_32_closed (w : Int) (hw0 : 0 ≤ w) (hw : w ≤ 2147483632) :
    width_16_32 w = 16 * ((w + 15) / 16) := by
  rw [width_16_32_value w hw0]
  split
  · rw [storeInt32_of_fits _ (by omega) (by omega), (wrap32_eq_self_iff _).2 (by omega)]
    omega
  · omega

theorem alloc_int_image32_run (libc : Libc) (w h : Int) :
    (alloc_int_image32 libc w h).run =
      ([Event.alloc (wrap32 (w * h) * 4)],
        if 0 ≤ wrap32 (w * h) * 4 ∧ libc.grants (wrap32 (w * h) * 4).toNat = true then
          Except.ok (List.replicate (wrap32 (w * h) * 4).toNat 0)
        else Except.error (Err.sys "alloc_int_image" "calloc" "image")) := by
  simp only [alloc_int_image32, Prog.run, bind, pure, liftM, monadLift, MonadLift.monadLift,
    Prog.lift, calloc, syserr, List.nil_append]
  split_ifs <;> rfl

theorem SizeFromDepth32_agrees (w h d n : Int) (hd : d ∈ supportedDepths) (hw0 : 0 ≤ w)
    (hh0 : 0 ≤ h) (hr : d = 24 ∨ w ≤ 16777216) (hn : SizeFromDepth w h d = Except.ok n)
    (hfit : n ≤ 2147483647) : SizeFromDepth32 w h d = Except.ok n := by
  have hd1 := supportedDepths_pos d hd
  have hn0 := SizeFromDepth_nonneg w h d n hw0 hh0 (by omega) hn
  rw [SizeFromDepth_supported w h d hd] at hn
  injection hn with hn
  by_cases h24 : d = 24
  · subst h24
    rw [if_pos rfl] at hn
    rw [SizeFromDepth32_rgb, wrap32_mul3, hn, (wrap32_eq_self_iff _).2 (by omega)]
  · rw [if_neg h24] at hn
    have hp : d ∈ packedDepths := ((mem_supportedDepths d).1 hd).resolve_left h24
    rw [SizeFromDepth32_exact w h d hp hw0 (hr.resolve_left h24) (by omega) (by omega), hn]

/-! ## The pure size computations on the machine: claims -/

/-- C1, as stated, fails on the machine: at width 16777217 = 2^24 + 1, height 1, depth 8 the
width is rounded to binary32 and `SizeFromDepth` returns 16777216, not `w * h`; at width and
height 65536, depth 8, the product 2^32 does not fit the `int` and the store delivers
`INT_MIN`. -/
theorem SizeFromDepth32_not_formula :
    SizeFromDepth32 16777217 1 8 = Except.ok 16777216 ∧
      SizeFromDepth32 16777217 1 8 ≠ Except.ok (16777217 * 1) ∧
      SizeFromDepth32 65536 65536 8 = Except.ok (-2147483648) := by
  have h1 : SizeFromDepth32 16777217 1 8 = Except.ok 16777216 := by
    rw [SizeFromDepth32_value 16777217 1 8 (by decide)]
    rfl
  refine ⟨h1, ?_, ?_⟩
  · rw [h1]
    intro h
    injection h with h
    exact absurd h (by decide)
  · rw [SizeFromDepth32_value 65536 65536 8 (by decide)]
    rfl

/-- C1, amended: for every width 1 <= w, height h >= 1: at a packing depth d, when
w <= 2^24 = 16777216 (the widths that binary32 holds exactly) and `ceil (w / (8/d)) * h` fits
a 32-bit `int`, `SizeFromDepth w h d` is `ceil (w / PixPerByte d) * h` with `PixPerByte d` =
8/d; at depth 24, when `w * h * 3` fits, it is `w * h * 3`; at depth 8, when w <= 2^24 and
`w * h` fits, it is `w * h`. -/
theorem SizeFromDepth32_formula (w h d : Int) (hw : 1 ≤ w) (hh : 1 ≤ h) :
    (d ∈ packedDepths → w ≤ 16777216 → ⌈(w : ℚ) / (8 / (d : ℚ))⌉ * h ≤ 2147483647 →
        PixPerByte d = Except.ok (8 / (d : ℚ)) ∧
        SizeFromDepth32 w h d = Except.ok (⌈(w : ℚ) / (8 / (d : ℚ))⌉ * h)) ∧
      (w * h * 3 ≤ 2147483647 → SizeFromDepth32 w h 24 = Except.ok (w * h * 3)) ∧
      (w ≤ 16777216 → w * h ≤ 2147483647 → SizeFromDepth32 w h 8 = Except.ok (w * h)) := by
  have hpos : 1 ≤ w * h := one_le_mul_of_one_le_of_one_le hw hh
  refine ⟨?_, ?_, ?_⟩
  · intro hd hw24 hfit
    have e := ceil_div_ppb w d hd
    unfold ceil at e
    have e2 : ⌈(w : ℚ) / (8 / (d : ℚ))⌉ = (w * d + 7) / 8 := by exact_mod_cast e
    rw [e2] at hfit ⊢
    have hd1 : 1 ≤ d := by
      rw [mem_packedDepths] at hd
      omega
    have hwd : 1 ≤ w * d := one_le_mul_of_one_le_of_one_le hw hd1
    have hb : 0 ≤ (w * d + 7) / 8 * h := mul_nonneg (by omega) (by omega)
    exact ⟨PixPerByte_ok d hd,
      SizeFromDepth32_exact w h d hd (by omega) hw24 (by omega) hfit⟩
  · intro hfit
    rw [SizeFromDepth32_rgb, wrap32_mul3, (wrap32_eq_self_iff _).2 (by omega)]
  · intro hw24 hfit
    have e : (w * 8 + 7) / 8 * h = w * h := by
      have : (w * 8 + 7) / 8 = w := by omega
      rw [this]
    rw [SizeFromDepth32_exact w h 8 (by decide) (by omega) hw24 (by omega) (by omega), e]

/-- Witness of the amended C1 at width 10, height 2, depth 1: two bytes a line. -/
theorem SizeFromDepth32_formula_witness :
    PixPerByte 1 = Except.ok (8 / ((1 : Int) : ℚ)) ∧
      SizeFromDepth32 10 2 1 = Except.ok (⌈((10 : Int) : ℚ) / (8 / ((1 : Int) : ℚ))⌉ * 2) :=
  (SizeFromDepth32_formula 10 2 1 (by decide) (by decide)).1 (by decide) (by decide) (by
    have e := ceil_div_ppb 10 1 (by decide)
    unfold ceil at e
    have e2 : ⌈((10 : Int) : ℚ) / (8 / ((1 : Int) : ℚ))⌉ = (10 * 1 + 7) / 8 := by
      exact_mod_cast e
    rw [e2]
    decide)

/-- C3, as stated, fails on the machine: at width 16777217 = 2^24 + 1, height 1, depth 1
`SizeFromDepth` returns 2097152 while `ceil (w / 8) * h` is 2097153: the byte of the last bit
is lost. -/
theorem SizeFromDepth32_depth1_loses_byte :
    SizeFromDepth32 16777217 1 1 = Except.ok 2097152 ∧
      ⌈((16777217 : Int) : ℚ) / 8⌉ * 1 = 2097153 := by
  constructor
  · rw [SizeFromDepth32_value 16777217 1 1 (by decide)]
    rfl
  · have h := ceil_intCast_div 16777217 8 (by decide)
    have e : (((8 : Int) : ℚ)) = 8 := by norm_num
    rw [e] at h
    rw [h]
    decide

/-- C3, amended: for every width 1 <= w <= 2^24 = 16777216 and height h >= 1 such that
`ceil (w / 8) * h` fits a 32-bit `int`, `SizeFromDepth w h 1` is `b * h` with
`b = ceil (w / 8)`, and the b bytes of a line hold all w bits, so a trailing incomplete byte
is counted; `SizeFromDepth 10 2 1` is 4. -/
theorem SizeFromDepth32_depth1 (w h : Int) (hw : 1 ≤ w) (hw24 : w ≤ 16777216) (hh : 1 ≤ h)
    (hfit : ⌈(w : ℚ) / 8⌉ * h ≤ 2147483647) :
    (∃ b : Int, SizeFromDepth32 w h 1 = Except.ok (b * h) ∧ b = ⌈(w : ℚ) / 8⌉ ∧ w ≤ 8 * b) ∧
      SizeFromDepth32 10 2 1 = Except.ok 4 := by
  have e : ⌈(w : ℚ) / 8⌉ = (w + 7) / 8 := by
    have h := ceil_intCast_div w 8 (by decide)
    have e1 : w + 8 - 1 = w + 7 := by ring
    rw [e1] at h
    rw [← h]
    norm_num
  rw [e] at hfit
  have hb : 0 ≤ (w + 7) / 8 * h := mul_nonneg (by omega) (by omega)
  refine ⟨⟨(w + 7) / 8, ?_, e.symm, by omega⟩, ?_⟩
  · rw [SizeFromDepth32_exact w h 1 (by decide) (by omega) hw24 (by rw [mul_one]; omega)
      (by rw [mul_one]; exact hfit), mul_one]
  · rw [SizeFromDepth32_exact 10 2 1 (by decide) (by decide) (by decide) (by decide)
      (by decide)]
    rfl

/-- Witness of the amended C3 at width 10 and height 2. -/
theorem SizeFromDepth32_depth1_witness :
    (∃ b : Int, SizeFromDepth32 10 2 1 = Except.ok (b * 2) ∧ b = ⌈((10 : Int) : ℚ) / 8⌉ ∧
        10 ≤ 8 * b) ∧
      SizeFromDepth32 10 2 1 = Except.ok 4 :=
  SizeFromDepth32_depth1 10 2 (by decide) (by decide) (by decide) (by
    have h := ceil_intCast_div 10 8 (by decide)
    have e : (((8 : Int) : ℚ)) = 8 := by norm_num
    rw [e] at h
    rw [h]
    decide)

/-- C16, as stated, fails on the machine: at width 16777217 = 2^24 + 1, height 1, depth 1 the
division and ceiling in floating point give 2097152, the integer form
`((w*d + 7) / 8) * h` gives 2097153. -/
theorem SizeFromDepth32_ne_sizeInteger :
    SizeFromDepth32 16777217 1 1 = Except.ok 2097152 ∧ sizeInteger 16777217 1 1 = 2097153 := by
  constructor
  · rw [SizeFromDepth32_value 16777217 1 1 (by decide)]
    rfl
  · rfl

/-- C16, amended: for every width 1 <= w <= 2^24 = 16777216 (the widths that binary32 holds
exactly), height h >= 1 and packing depth d such that the integer form
`((w*d + 7) / 8) * h` fits a 32-bit `int`, the size that `SizeFromDepth` computes by division
and ceiling in floating point is that integer form. -/
theorem SizeFromDepth32_eq_sizeInteger (w h d : Int) (hw : 1 ≤ w) (hw24 : w ≤ 16777216)
    (hh : 1 ≤ h) (hd : d ∈ packedDepths) (hfit : sizeInteger w h d ≤ 2147483647) :
    SizeFromDepth32 w h d = Except.ok (sizeInteger w h d) ∧ 1 ≤ sizeInteger w h d := by
  unfold sizeInteger at hfit ⊢
  have hd0 : 1 ≤ d := by
    rw [mem_packedDepths] at hd
    omega
  have hwd : 1 ≤ w * d := one_le_mul_of_one_le_of_one_le hw hd0
  have hb : 1 ≤ (w * d + 7) / 8 := by omega
  have hpos : 1 ≤ (w * d + 7) / 8 * h := one_le_mul_of_one_le_of_one_le hb hh
  exact ⟨SizeFromDepth32_exact w h d hd (by omega) hw24 (by omega) hfit, hpos⟩

/-- Witness of the amended C16 at width 10, height 2, depth 1. -/
theorem SizeFromDepth32_eq_sizeInteger_witness :
    SizeFromDepth32 10 2 1 = Except.ok (sizeInteger 10 2 1) ∧ 1 ≤ sizeInteger 10 2 1 :=
  SizeFromDepth32_eq_sizeInteger 10 2 1 (by decide) (by decide) (by decide) (by decide)
    (by decide)

theorem SizeFromDepth32_le_of_le (w1 w2 h1 h2 d : Int) (hd : d ∈ supportedDepths)
    (hw : 0 ≤ w1) (hh : 0 ≤ h1) (hw12 : w1 ≤ w2) (hh12 : h1 ≤ h2)
    (hr : d = 24 ∨ w2 ≤ 16777216) (hfit : specSize w2 h2 d ≤ 2147483647) :
    ∃ n m : Int, SizeFromDepth32 w1 h1 d = Except.ok n ∧
      SizeFromDepth32 w2 h2 d = Except.ok m ∧ n ≤ m := by
  obtain ⟨n, m, hn, hm, hnm⟩ := SizeFromDepth_le_of_le w1 w2 h1 h2 d hd hw hh hw12 hh12
  have hmfit : m ≤ 2147483647 := by
    have hm2 := hm
    rw [SizeFromDepth_supported w2 h2 d hd] at hm2
    injection hm2 with hm2
    rw [← hm2]
    exact hfit
  refine ⟨n, m, ?_, ?_, hnm⟩
  · exact SizeFromDepth32_agrees w1 h1 d n hd hw hh (by omega) hn (by omega)
  · exact SizeFromDepth32_agrees w2 h2 d m hd (by omega) (by omega) hr hm hmfit

/-- C20, as stated, fails on the machine: at width 1, height 44739243, depth 24 the size is
134217729, while the size of the padded width 16 is the product 16 * 44739243 * 3 =
2147483664, which wraps around to -2147483632: padding shrinks the computed size. -/
theorem SizeFromDepth32_padding_shrinks :
    SizeFromDepth32 1 44739243 24 = Except.ok 134217729 ∧ width_16_32 1 = 16 ∧
      SizeFromDepth32 (width_16_32 1) 44739243 24 = Except.ok (-2147483632) := by
  have h16 : width_16_32 1 = 16 := by
    rw [width_16_32_closed 1 (by decide) (by decide)]
    rfl
  refine ⟨?_, h16, ?_⟩
  · rw [SizeFromDepth32_rgb]
    rfl
  · rw [h16, SizeFromDepth32_rgb]
    rfl

/-- C20, amended: as long as the size of the larger image fits a 32-bit `int` (the size as
the specification defines it, `specSize`) and, at a packing depth, its width is at most
2^24 = 16777216, padding never shrinks the buffer and `SizeFromDepth` does not decrease when
the width grows or when the height grows: for every w >= 1, h >= 1 and supported depth d,
`SizeFromDepth (width_16 w) h d >= SizeFromDepth w h d`,
`SizeFromDepth w2 h d >= SizeFromDepth w h d` for w2 >= w, and
`SizeFromDepth w h2 d >= SizeFromDepth w h d` for h2 >= h. -/
theorem SizeFromDepth32_monotone (w h d : Int) (hw : 1 ≤ w) (hh : 1 ≤ h)
    (hd : d ∈ supportedDepths) :
    ((d = 24 ∨ w ≤ 16777216) → specSize (16 * ((w + 15) / 16)) h d ≤ 2147483647 →
        ∃ n m : Int, SizeFromDepth32 w h d = Except.ok n ∧
          SizeFromDepth32 (width_16_32 w) h d = Except.ok m ∧ n ≤ m) ∧
      (∀ w2 : Int, w ≤ w2 → (d = 24 ∨ w2 ≤ 16777216) → specSize w2 h d ≤ 2147483647 →
        ∃ n m : Int, SizeFromDepth32 w h d = Except.ok n ∧
          SizeFromDepth32 w2 h d = Except.ok m ∧ n ≤ m) ∧
      (∀ h2 : Int, h ≤ h2 → (d = 24 ∨ w ≤ 16777216) → specSize w h2 d ≤ 2147483647 →
        ∃ n m : Int, SizeFromDepth32 w h d = Except.ok n ∧
          SizeFromDepth32 w h2 d = Except.ok m ∧ n ≤ m) := by
  have hd1 := supportedDepths_pos d hd
  refine ⟨?_, ?_, ?_⟩
  · intro hr hfit
    have hW : 16 * ((w + 15) / 16) ≤ 2147483632 := by
      rcases hr with h24 | hw24
      · subst h24
        unfold specSize at hfit
        rw [if_pos rfl] at hfit
        have : 16 * ((w + 15) / 16) * 1 * 1 ≤ 16 * ((w + 15) / 16) * h * 3 :=
          mul_le_mul (mul_le_mul (le_refl _) hh (by decide) (by omega)) (by decide)
            (by decide) (mul_nonneg (by omega) (by omega))
        omega
      · omega
    rw [width_16_32_closed w (by omega) (by omega)]
    refine SizeFromDepth32_le_of_le w (16 * ((w + 15) / 16)) h h d hd (by omega) (by omega)
      (by omega) (le_refl h) ?_ hfit
    rcases hr with h24 | hw24
    · exact Or.inl h24
    · exact Or.inr (by omega)
  · intro w2 hw2 hr hfit
    exact SizeFromDepth32_le_of_le w w2 h h d hd (by omega) (by omega) hw2 (le_refl h) hr hfit
  · intro h2 hh2 hr hfit
    exact SizeFromDepth32_le_of_le w w h h2 d hd (by omega) (by omega) (le_refl w) hh2 hr hfit

/-- Witness of the amended C20 at width 17, height 10, depth 24: the padded width is 32 and
the sizes are 510 and 960. -/
theorem SizeFromDepth32_monotone_witness :
    ∃ n m : Int, SizeFromDepth32 17 10 24 = Except.ok n ∧
      SizeFromDepth32 (width_16_32 17) 10 24 = Except.ok m ∧ n ≤ m :=
  (SizeFromDepth32_monotone 17 10 24 (by decide) (by decide) (by decide)).1
    (Or.inl rfl) (by decide)

/-! ## The word alignment on the machine: claims -/

/-- C4: for every width w >= 1 and packing depth d, the scanline of `WordAlignFromDepth w d`
pixels occupies an even number of bytes: `ceil (WordAlignFromDepth w d / PixPerByte d)` is
even.  This holds of the machine computation at every width, also where the width is rounded
to binary32 or a store leaves the range of `int`. -/
theorem WordAlignFromDepth32_even_bytes (w d : Int) :
    1 ≤ w → d ∈ packedDepths →
    ∃ (a : Int) (p : ℚ), WordAlignFromDepth32 w d = Except.ok a ∧ PixPerByte d = Except.ok p ∧
      ⌈(a : ℚ) / p⌉ % 2 = 0 := by
  intro _ hd
  refine ⟨_, 8 / (d : ℚ), WordAlignFromDepth32_bytes w d hd, PixPerByte_ok d hd, ?_⟩
  have e := fun a : Int => ceil_div_ppb a d hd
  unfold ceil at e
  have e2 : ∀ a : Int, ⌈(a : ℚ) / (8 / (d : ℚ))⌉ = (a * d + 7) / 8 := by
    intro a
    exact_mod_cast e a
  rw [e2]
  have hg := roundF32_even _
    (alignedBytes32_even (toInt32 (((roundF32 w * d + 7) / 8 : Int) : ℚ)))
  generalize roundF32 (alignedBytes32 (toInt32 (((roundF32 w * d + 7) / 8 : Int) : ℚ)))
    = g at hg ⊢
  have key : ∀ c : Int, (g : ℚ) * (c : ℚ) = ((g * c : Int) : ℚ) := by
    intro c
    push_cast
    ring
  rw [mem_packedDepths] at hd
  rcases hd with rfl | rfl | rfl | rfl | rfl | rfl | rfl
  · have h8 : (8 : ℚ) / ((1 : Int) : ℚ) = ((8 : Int) : ℚ) := by norm_num
    rw [h8, key, toInt32_intCast]
    unfold storeInt32 INT_MIN INT_MAX
    split <;> omega
  · have h8 : (8 : ℚ) / ((2 : Int) : ℚ) = ((4 : Int) : ℚ) := by norm_num
    rw [h8, key, toInt32_intCast]
    unfold storeInt32 INT_MIN INT_MAX
    split <;> omega
  · have h8 : (8 : ℚ) / ((4 : Int) : ℚ) = ((2 : Int) : ℚ) := by norm_num
    rw [h8, key, toInt32_intCast]
    unfold storeInt32 INT_MIN INT_MAX
    split <;> omega
  · have h8 : (8 : ℚ) / ((8 : Int) : ℚ) = ((1 : Int) : ℚ) := by norm_num
    rw [h8, key, toInt32_intCast]
    unfold storeInt32 INT_MIN INT_MAX
    split <;> omega
  · omega
  · omega
  · omega

/-- Witness of C4 at width 16777217 = 2^24 + 1, where the width is rounded, and depth 8. -/
theorem WordAlignFromDepth32_even_bytes_witness :
    ∃ (a : Int) (p : ℚ), WordAlignFromDepth32 16777217 8 = Except.ok a ∧
      PixPerByte 8 = Except.ok p ∧ ⌈(a : ℚ) / p⌉ % 2 = 0 :=
  WordAlignFromDepth32_even_bytes 16777217 8 (by decide) (by decide)

theorem WordAlignFromDepth32_least (w d : Int) (hw0 : 0 ≤ w) (hw : w ≤ 16777216)
    (hd : d ∈ packedDepths) :
    ∃ a : Int, WordAlignFromDepth32 w d = Except.ok a ∧ w ≤ a ∧ FillsEvenBytes a d ∧
      ∀ v : Int, w ≤ v → FillsEvenBytes v d → a ≤ v := by
  rw [WordAlignFromDepth32_of_le w d hd hw0 hw]
  exact WordAlignFromDepth_least w d hw0 hd

/-- C5, as stated, fails on the machine: at width 16777217 = 2^24 + 1 and depth 8 the width is
rounded to binary32 and `WordAlignFromDepth` returns 16777216, which is less than the
width. -/
theorem WordAlignFromDepth32_below_width :
    WordAlignFromDepth32 16777217 8 = Except.ok 16777216 ∧ (16777216 : Int) < 16777217 := by
  constructor
  · rw [WordAlignFromDepth32_value 16777217 8 16777216 (by decide) (by decide)]
    rfl
  · decide

/-- C5, amended: for every width 1 <= w <= 2^24 = 16777216 (the widths that binary32 holds
exactly) and packing depth d, `WordAlignFromDepth w d` returns a width that is at least w. -/
theorem WordAlignFromDepth32_ge (w d : Int) (hw : 1 ≤ w) (hw24 : w ≤ 16777216)
    (hd : d ∈ packedDepths) :
    ∃ a : Int, WordAlignFromDepth32 w d = Except.ok a ∧ w ≤ a := by
  obtain ⟨a, ha, hwa, -, -⟩ := WordAlignFromDepth32_least w d (by omega) hw24 hd
  exact ⟨a, ha, hwa⟩

/-- Witness of the amended C5 at width 3, depth 8. -/
theorem WordAlignFromDepth32_ge_witness :
    ∃ a : Int, WordAlignFromDepth32 3 8 = Except.ok a ∧ 3 ≤ a :=
  WordAlignFromDepth32_ge 3 8 (by decide) (by decide) (by decide)

/-- C6, as stated, fails: at width 10 and depth 1 the routine returns 16, while the width 10
itself already packs into `ceil (10 / 8) = 2` bytes, an even count, and 10 < 16; and on the
machine, at width 16777217 = 2^24 + 1 and depth 8, it returns 16777216, which is not even
>= w. -/
theorem WordAlignFromDepth32_not_least_even_ceil :
    WordAlignFromDepth32 10 1 = Except.ok 16 ∧ PixPerByte 1 = Except.ok 8 ∧
      ¬ (∀ v : Int, 10 ≤ v → ⌈(v : ℚ) / 8⌉ % 2 = 0 → 16 ≤ v) ∧
      WordAlignFromDepth32 16777217 8 = Except.ok 16777216 := by
  refine ⟨?_, ?_, ?_, ?_⟩
  · rw [WordAlignFromDepth32_value 10 1 16 (by decide) (by decide)]
    rfl
  · rw [PixPerByte_ok 1 (by decide)]
    norm_num
  · intro h
    have h10 := h 10 (le_refl _)
    have e := ceil_intCast_div 10 8 (by decide)
    have e2 : ⌈((10 : Int) : ℚ) / 8⌉ = 2 := by
      have e3 : (((8 : Int) : ℚ)) = 8 := by norm_num
      rw [e3] at e
      rw [e]
      decide
    rw [e2] at h10
    exact absurd (h10 (by decide)) (by decide)
  · rw [WordAlignFromDepth32_value 16777217 8 16777216 (by decide) (by decide)]
    rfl

/-- C6, amended: for every width 1 <= w <= 2^24 = 16777216 (the widths that binary32 holds
exactly) and packing depth d, `WordAlignFromDepth w d` is the smallest pixel width v >= w
whose pixels fill an even number of whole bytes, that is, for which `v / PixPerByte d` is an
even integer. -/
theorem WordAlignFromDepth32_least_filling (w d : Int) (hw : 1 ≤ w) (hw24 : w ≤ 16777216)
    (hd : d ∈ packedDepths) :
    ∃ (a : Int) (p : ℚ), WordAlignFromDepth32 w d = Except.ok a ∧ PixPerByte d = Except.ok p ∧
      w ≤ a ∧ (∃ k : Int, (a : ℚ) / p = 2 * (k : ℚ)) ∧
      ∀ v : Int, w ≤ v → (∃ k : Int, (v : ℚ) / p = 2 * (k : ℚ)) → a ≤ v := by
  obtain ⟨a, ha, hwa, hf, hmin⟩ := WordAlignFromDepth32_least w d (by omega) hw24 hd
  exact ⟨a, 8 / (d : ℚ), ha, PixPerByte_ok d hd, hwa, hf, hmin⟩

/-- Witness of the amended C6 at width 10, depth 1. -/
theorem WordAlignFromDepth32_least_filling_witness :
    ∃ (a : Int) (p : ℚ), WordAlignFromDepth32 10 1 = Except.ok a ∧ PixPerByte 1 = Except.ok p ∧
      10 ≤ a ∧ (∃ k : Int, (a : ℚ) / p = 2 * (k : ℚ)) ∧
      ∀ v : Int, 10 ≤ v → (∃ k : Int, (v : ℚ) / p = 2 * (k : ℚ)) → a ≤ v :=
  WordAlignFromDepth32_least_filling 10 1 (by decide) (by decide) (by decide)

/-- C18, as stated, fails on the machine: at width 16777217 = 2^24 + 1 and depth 16 the width
is rounded to binary32 and `WordAlignFromDepth` returns 16777216, not w. -/
theorem WordAlignFromDepth32_not_width :
    WordAlignFromDepth32 16777217 16 = Except.ok 16777216 ∧
      WordAlignFromDepth32 16777217 16 ≠ Except.ok 16777217 := by
  have h : WordAlignFromDepth32 16777217 16 = Except.ok 16777216 := by
    rw [WordAlignFromDepth32_value 16777217 16 16777216 (by decide) (by decide)]
    rfl
  refine ⟨h, ?_⟩
  rw [h]
  intro he
  injection he with he
  exact absurd he (by decide)

/-- C18, amended: for every width 1 <= w <= 2^24 = 16777216 (the widths that binary32 holds
exactly): at a depth d of 1, 2, 4 or 8, `WordAlignFromDepth w d` is the smallest multiple of
`16/d` that is >= w; at a depth d of 16, 32 or 64, `WordAlignFromDepth w d` is w. -/
theorem WordAlignFromDepth32_multiple (w : Int) (hw : 1 ≤ w) (hw24 : w ≤ 16777216) :
    (∀ d ∈ subByteDepths, ∃ a : Int, WordAlignFromDepth32 w d = Except.ok a ∧
        (16 / d) ∣ a ∧ w ≤ a ∧ ∀ m : Int, (16 / d) ∣ m → w ≤ m → a ≤ m) ∧
      (∀ d ∈ multiByteDepths, WordAlignFromDepth32 w d = Except.ok w) := by
  have hw0 : 0 ≤ w := by omega
  constructor
  · intro d hd
    simp only [subByteDepths, List.mem_cons, List.mem_singleton, List.not_mem_nil,
      or_false] at hd
    rcases hd with rfl | rfl | rfl | rfl
    · refine ⟨16 * ((w + 15) / 16), ?_, Dvd.intro _ rfl, by omega, ?_⟩
      · rw [WordAlignFromDepth32_of_le w 1 (by decide) hw0 hw24,
          WordAlignFromDepth_closed w 1 hw0 (by decide)]
        rfl
      · rintro m ⟨c, rfl⟩ hm
        omega
    · refine ⟨8 * ((w + 7) / 8), ?_, Dvd.intro _ rfl, by omega, ?_⟩
      · rw [WordAlignFromDepth32_of_le w 2 (by decide) hw0 hw24,
          WordAlignFromDepth_closed w 2 hw0 (by decide)]
        rfl
      · rintro m ⟨c, rfl⟩ hm
        have e : (16 : Int) / 2 = 8 := by decide
        rw [e] at hm ⊢
        omega
    · refine ⟨4 * ((w + 3) / 4), ?_, Dvd.intro _ rfl, by omega, ?_⟩
      · rw [WordAlignFromDepth32_of_le w 4 (by decide) hw0 hw24,
          WordAlignFromDepth_closed w 4 hw0 (by decide)]
        rfl
      · rintro m ⟨c, rfl⟩ hm
        have e : (16 : Int) / 4 = 4 := by decide
        rw [e] at hm ⊢
        omega
    · refine ⟨2 * ((w + 1) / 2), ?_, Dvd.intro _ rfl, by omega, ?_⟩
      · rw [WordAlignFromDepth32_of_le w 8 (by decide) hw0 hw24,
          WordAlignFromDepth_closed w 8 hw0 (by decide)]
        rfl
      · rintro m ⟨c, rfl⟩ hm
        have e : (16 : Int) / 8 = 2 := by decide
        rw [e] at hm ⊢
        omega
  · intro d hd
    simp only [multiByteDepths, List.mem_cons, List.mem_singleton, List.not_mem_nil,
      or_false] at hd
    rcases hd with rfl | rfl | rfl
    · rw [WordAlignFromDepth32_of_le w 16 (by decide) hw0 hw24,
        WordAlignFromDepth_closed w 16 hw0 (by decide)]
      rfl
    · rw [WordAlignFromDepth32_of_le w 32 (by decide) hw0 hw24,
        WordAlignFromDepth_closed w 32 hw0 (by decide)]
      rfl
    · rw [WordAlignFromDepth32_of_le w 64 (by decide) hw0 hw24,
        WordAlignFromDepth_closed w 64 hw0 (by decide)]
      rfl

/-- Witness of the amended C18 at width 10. -/
theorem WordAlignFromDepth32_multiple_witness :
    (∀ d ∈ subByteDepths, ∃ a : Int, WordAlignFromDepth32 10 d = Except.ok a ∧
        (16 / d) ∣ a ∧ 10 ≤ a ∧ ∀ m : Int, (16 / d) ∣ m → 10 ≤ m → a ≤ m) ∧
      (∀ d ∈ multiByteDepths, WordAlignFromDepth32 10 d = Except.ok 10) :=
  WordAlignFromDepth32_multiple 10 (by decide) (by decide)

/-- C19, as stated, fails on the machine: the width 268435457 = 2^28 + 1 is padded to
268435472, which binary32 rounds to 2^28, and `WordAlignFromDepth` at depth 8 returns
268435456, not the padded width. -/
theorem WordAlignFromDepth32_width_16_moves :
    width_16_32 268435457 = 268435472 ∧
      WordAlignFromDepth32 (width_16_32 268435457) 8 = Except.ok 268435456 := by
  have h : width_16_32 268435457 = 268435472 := by
    rw [width_16_32_closed 268435457 (by decide) (by decide)]
    rfl
  refine ⟨h, ?_⟩
  rw [h, WordAlignFromDepth32_value 268435472 8 268435456 (by decide) (by decide)]
  rfl

/-- C19, amended: a width padded to 16 pixels is already word aligned as long as
w <= 2^28 - 16 = 268435440: for every such width w >= 1 and packing depth d,
`WordAlignFromDepth (width_16 w) d` is `width_16 w`, and the padded scanline that
`allocate_aligned_image` sizes has an even byte length: `ceil (width_16 w / PixPerByte d)` is
even and, when the product fits a 32-bit `int`, `SizeFromDepth (width_16 w) h d` is that even
count times h. -/
theorem WordAlignFromDepth32_width_16 (w d : Int) (hw : 1 ≤ w) (hmax : w ≤ 268435440)
    (hd : d ∈ packedDepths) :
    WordAlignFromDepth32 (width_16_32 w) d = Except.ok (width_16_32 w) ∧
      ⌈(width_16_32 w : ℚ) / (8 / (d : ℚ))⌉ % 2 = 0 ∧
      ∀ h : Int, 0 ≤ h → ⌈(width_16_32 w : ℚ) / (8 / (d : ℚ))⌉ * h ≤ 2147483647 →
        SizeFromDepth32 (width_16_32 w) h d =
          Except.ok (⌈(width_16_32 w : ℚ) / (8 / (d : ℚ))⌉ * h) := by
  have h16 := width_16_32_closed w (by omega) (by omega)
  have e := ceil_div_ppb (width_16_32 w) d hd
  unfold ceil at e
  have e2 : ⌈(width_16_32 w : ℚ) / (8 / (d : ℚ))⌉ = (width_16_32 w * d + 7) / 8 := by
    exact_mod_cast e
  rw [e2]
  generalize width_16_32 w = W at h16 ⊢
  have hW0 : 0 ≤ W := by omega
  have hr : roundF32 W = W := roundF32_of_exact W hW0 (by omega)
  have hd' := hd
  rw [mem_packedDepths] at hd'
  refine ⟨?_, ?_, ?_⟩
  · rw [WordAlignFromDepth32_exact W d hd hW0 hr
      (by rcases hd' with rfl | rfl | rfl | rfl | rfl | rfl | rfl <;> omega)
      (roundF32_of_exact _
        (by rcases hd' with rfl | rfl | rfl | rfl | rfl | rfl | rfl <;> omega)
        (by rcases hd' with rfl | rfl | rfl | rfl | rfl | rfl | rfl <;> omega))
      (by rcases hd' with rfl | rfl | rfl | rfl | rfl | rfl | rfl <;> omega),
      WordAlignFromDepth_closed W d hW0 hd]
    congr 1
    rcases hd' with rfl | rfl | rfl | rfl | rfl | rfl | rfl <;> simp <;> omega
  · rcases hd' with rfl | rfl | rfl | rfl | rfl | rfl | rfl <;> omega
  · intro h hh hfit
    have hd0 : 0 < d := by omega
    have hWd : 0 ≤ W * d := mul_nonneg hW0 (le_of_lt hd0)
    have hb : 0 ≤ (W * d + 7) / 8 * h := mul_nonneg (by omega) hh
    exact SizeFromDepth32_of_exact W h d hd hr (by omega) hfit

/-- Witness of the amended C19 at width 17, depth 1. -/
theorem WordAlignFromDepth32_width_16_witness :
    WordAlignFromDepth32 (width_16_32 17) 1 = Except.ok (width_16_32 17) ∧
      ⌈(width_16_32 17 : ℚ) / (8 / ((1 : Int) : ℚ))⌉ % 2 = 0 ∧
      ∀ h : Int, 0 ≤ h → ⌈(width_16_32 17 : ℚ) / (8 / ((1 : Int) : ℚ))⌉ * h ≤ 2147483647 →
        SizeFromDepth32 (width_16_32 17) h 1 =
          Except.ok (⌈(width_16_32 17 : ℚ) / (8 / ((1 : Int) : ℚ))⌉ * h) :=
  WordAlignFromDepth32_width_16 17 1 (by decide) (by decide) (by decide)

/-! ## The 16-pixel rounding and the element count on the machine: claims -/

/-- C7, as stated, fails on the machine: at width 2147483647 = `INT_MAX` the product
`(int)newwords * 16` is 2^31, which wraps around, and `width_16` returns -2147483648, which is
not >= w. -/
theorem width_16_32_overflows :
    width_16_32 2147483647 = -2147483648 ∧ (-2147483648 : Int) < 2147483647 := by
  constructor
  · rw [width_16_32_value 2147483647 (by decide)]
    rfl
  · decide

/-- C7, amended: for every width 1 <= w <= 2^31 - 16 = 2147483632, `width_16 w` is the
smallest multiple of 16 that is >= w: it is a multiple of 16, it is >= w, it is < w + 16, and
no multiple of 16 that is >= w lies below it; `width_16 16 = 16`, `width_16 17 = 32`,
`width_16 1 = 16`. -/
theorem width_16_32_least_multiple (w : Int) (hw : 1 ≤ w) (hmax : w ≤ 2147483632) :
    16 ∣ width_16_32 w ∧ w ≤ width_16_32 w ∧ width_16_32 w < w + 16 ∧
      (∀ m : Int, 16 ∣ m → w ≤ m → width_16_32 w ≤ m) ∧
      width_16_32 16 = 16 ∧ width_16_32 17 = 32 ∧ width_16_32 1 = 16 := by
  rw [width_16_32_closed w (by omega) hmax, width_16_32_closed 16 (by decide) (by decide),
    width_16_32_closed 17 (by decide) (by decide), width_16_32_closed 1 (by decide) (by decide)]
  refine ⟨Dvd.intro _ rfl, by omega, by omega, ?_, by decide, by decide, by decide⟩
  rintro m ⟨c, rfl⟩ hm
  omega

/-- Witness of the amended C7 at width 17. -/
theorem width_16_32_least_multiple_witness :
    16 ∣ width_16_32 17 ∧ 17 ≤ width_16_32 17 ∧ width_16_32 17 < 17 + 16 ∧
      (∀ m : Int, 16 ∣ m → 17 ≤ m → width_16_32 17 ≤ m) ∧
      width_16_32 16 = 16 ∧ width_16_32 17 = 32 ∧ width_16_32 1 = 16 :=
  width_16_32_least_multiple 17 (by decide) (by decide)

/-- C13, as stated, fails on the machine: at width and height 65536 the `int` product
`width*height` wraps around to 0, so `alloc_int_image` asks for 0 bytes, while
`SizeFromDepth 65536 65536 32` delivers `INT_MIN`. -/
theorem alloc_int_image32_count_wraps :
    (alloc_int_image32 roomy 65536 65536).run = ([Event.alloc 0], Except.ok []) ∧
      SizeFromDepth32 65536 65536 32 = Except.ok (-2147483648) := by
  constructor
  · rw [alloc_int_image32_run]
    rfl
  · rw [SizeFromDepth32_value 65536 65536 32 (by decide)]
    rfl

/-- C13, amended: for every width 1 <= w <= 2^24 = 16777216 and height h >= 1 such that
`w * h * 4` fits a 32-bit `int`, the zero-filled buffer of `alloc_int_image w h` (`w * h`
elements of 4 bytes) has exactly the byte length `SizeFromDepth w h 32`. -/
theorem alloc_int_image32_length (libc : Libc) (w h : Int) (hw : 1 ≤ w) (hw24 : w ≤ 16777216)
    (hh : 1 ≤ h) (hfit : w * h * 4 ≤ 2147483647)
    (hgrant : libc.grants (w * h * 4).toNat = true) :
    ∃ (n : Int) (buf : Buffer), SizeFromDepth32 w h 32 = Except.ok n ∧ n = w * h * 4 ∧
      (alloc_int_image32 libc w h).run = ([Event.alloc n], Except.ok buf) ∧
      (buf.length : Int) = n ∧ ∀ b ∈ buf, b = 0 := by
  have hwh : 1 ≤ w * h := one_le_mul_of_one_le_of_one_le hw hh
  have hpos : 0 ≤ w * h * 4 := by omega
  have hwrap : wrap32 (w * h) = w * h := (wrap32_eq_self_iff _).2 (by omega)
  have e : (w * 32 + 7) / 8 * h = w * h * 4 := by
    have : (w * 32 + 7) / 8 = w * 4 := by omega
    rw [this]
    ring
  refine ⟨w * h * 4, List.replicate (w * h * 4).toNat 0, ?_, rfl, ?_, ?_, ?_⟩
  · rw [SizeFromDepth32_exact w h 32 (by decide) (by omega) hw24 (by omega) (by omega), e]
  · rw [alloc_int_image32_run, hwrap, if_pos ⟨hpos, hgrant⟩]
  · rw [List.length_replicate]
    exact Int.toNat_of_nonneg hpos
  · intro b hb
    exact List.eq_of_mem_replicate hb

/-- Witness of the amended C13 with the allocator that grants everything, at width 3 and
height 2. -/
theorem alloc_int_image32_length_witness :
    ∃ (n : Int) (buf : Buffer), SizeFromDepth32 3 2 32 = Except.ok n ∧ n = 3 * 2 * 4 ∧
      (alloc_int_image32 roomy 3 2).run = ([Event.alloc n], Except.ok buf) ∧
      (buf.length : Int) = n ∧ ∀ b ∈ buf, b = 0 :=
  alloc_int_image32_length roomy 3 2 (by decide) (by decide) (by decide) (by decide) rfl

end Imgutil
